import Mathlib

/-!
# Verification of the toko design-token pipeline

A shallow embedding, in Lean 4, of the token-processing pipeline of
`src/code.js`: numeric rounding, px/rem formatting, RGB→HSL conversion,
the Figma→DTCG value converter, the scope-based type classifier, canonical
collection-key assignment, alias resolution, the payload builder
(`createSimplifiedDTCGPayload`) and the object-literal code emitter
(`generateJSCodeFromPayload`).

Modelling conventions:
* JavaScript numbers are modelled as exact rationals (`ℚ`); `Math.round`
  is round-half-up (`⌊x + 1/2⌋`).
* JavaScript strings are Lean `String`s; the decimal printing of a number
  that holds at most three decimals (the only numbers these code paths
  print) is reproduced exactly, including trailing-zero stripping.
* JavaScript objects/values are modelled by inductive types (`FVal` for
  raw variable values, `JVal` for JSON-like payload trees); `undefined`
  and `null` guards are modelled with `Option` or with falsy sentinels
  (the empty string) exactly where the source checks truthiness.
-/

namespace Toko

/-! ## JavaScript-style rounding (code.js lines 9-19)

`roundToMaxThreeDecimals(num)` computes `Math.round(num * 1000) / 1000`
and then re-parses the printed form, which does not change the numeric
value; `Math.round` rounds half toward positive infinity. -/

/-- JavaScript `Math.round`: round half up (toward `+∞`).  Defined via the
executable `Rat.floor` so that concrete instances evaluate by `decide`. -/
def jsRound (x : ℚ) : ℤ := (x + 1/2).floor

theorem ratFloor_eq_floor (q : ℚ) : q.floor = ⌊q⌋ := by
  rw [Rat.floor_def', Rat.floor_def]

theorem jsRound_eq (x : ℚ) : jsRound x = ⌊x + 1/2⌋ := ratFloor_eq_floor _

/-- `roundToMaxThreeDecimals` from code.js lines 9-19: round to three
decimal places.  (The JS `parseFloat(rounded.toString())` step is a
value-preserving reparse and is absorbed here.) -/
def roundToMaxThreeDecimals (x : ℚ) : ℚ := (jsRound (x * 1000) : ℚ) / 1000

theorem jsRound_intCast (m : ℤ) : jsRound (m : ℚ) = m := by
  rw [jsRound_eq]
  rw [show ((m : ℚ) + 1/2) = ((m : ℤ) : ℚ) + (1/2 : ℚ) by ring]
  rw [Int.floor_int_add]
  norm_num

/-- Characterisation used to evaluate `jsRound` on concrete rationals:
the Mathlib rational-number instances do not reduce in the kernel, so
concrete values are certified through the floor inequalities instead. -/
theorem jsRound_eq_of {x : ℚ} {m : ℤ} (h1 : (m : ℚ) ≤ x + 1/2) (h2 : x + 1/2 < m + 1) :
    jsRound x = m := by
  rw [jsRound_eq]
  exact Int.floor_eq_iff.mpr ⟨h1, by exact_mod_cast h2⟩

theorem roundToMaxThreeDecimals_idem (x : ℚ) :
    roundToMaxThreeDecimals (roundToMaxThreeDecimals x) = roundToMaxThreeDecimals x := by
  unfold roundToMaxThreeDecimals
  have h : ((jsRound (x * 1000) : ℚ) / 1000) * 1000 = (jsRound (x * 1000) : ℚ) := by
    field_simp
  rw [h, jsRound_intCast]

/-! ## Decimal/hex digit printing

JS prints the 3-decimal rationals these code paths produce in plain
decimal notation with trailing zeros stripped (`(4.5).toString() = "4.5"`,
`(0.063).toString() = "0.063"`, `(16).toString() = "16"`). -/

/-- Digits in a given base, fuel-indexed so that the definition is
structurally recursive and kernel-reducible. -/
def baseDigitsAux (base : ℕ) : ℕ → ℕ → List Char
  | 0, _ => []
  | f + 1, n =>
    if n < base then [Nat.digitChar n]
    else baseDigitsAux base f (n / base) ++ [Nat.digitChar (n % base)]

theorem baseDigitsAux_congr (base : ℕ) (hb : 2 ≤ base) :
    ∀ f₁ : ℕ, ∀ f₂ n : ℕ, n < f₁ → n < f₂ → baseDigitsAux base f₁ n = baseDigitsAux base f₂ n := by
  intro f₁
  induction f₁ with
  | zero => intro f₂ n h1 _; omega
  | succ k ih =>
    intro f₂ n h1 h2
    match f₂, h2 with
    | m + 1, _ =>
      show baseDigitsAux base (k+1) n = baseDigitsAux base (m+1) n
      unfold baseDigitsAux
      by_cases hn : n < base
      · simp [hn]
      · simp only [if_neg hn]
        have hdiv : n / base < n := Nat.div_lt_self (by omega) hb
        rw [ih m (n / base) (by omega) (by omega)]

/-- Decimal digits of a natural number, most significant first. -/
def decDigits (n : ℕ) : List Char := baseDigitsAux 10 (n + 1) n

/-- Lowercase hexadecimal digits of a natural number, most significant
first (JS `n.toString(16)` for nonnegative `n`). -/
def hexDigits (n : ℕ) : List Char := baseDigitsAux 16 (n + 1) n

theorem decDigits_eq (n : ℕ) :
    decDigits n = if n < 10 then [Nat.digitChar n]
      else decDigits (n / 10) ++ [Nat.digitChar (n % 10)] := by
  unfold decDigits
  conv_lhs => unfold baseDigitsAux
  by_cases hn : n < 10
  · simp [hn]
  · simp only [if_neg hn]
    have hdiv : n / 10 < n := Nat.div_lt_self (by omega) (by norm_num)
    rw [baseDigitsAux_congr 10 (by norm_num) n (n / 10 + 1) (n / 10) (by omega) (by omega)]

theorem hexDigits_eq (n : ℕ) :
    hexDigits n = if n < 16 then [Nat.digitChar n]
      else hexDigits (n / 16) ++ [Nat.digitChar (n % 16)] := by
  unfold hexDigits
  conv_lhs => unfold baseDigitsAux
  by_cases hn : n < 16
  · simp [hn]
  · simp only [if_neg hn]
    have hdiv : n / 16 < n := Nat.div_lt_self (by omega) (by norm_num)
    rw [baseDigitsAux_congr 16 (by norm_num) n (n / 16 + 1) (n / 16) (by omega) (by omega)]

/-- JS decimal printing of a natural number. -/
def printNat (n : ℕ) : String := ⟨decDigits n⟩

/-- JS decimal printing of an integer. -/
def printInt (i : ℤ) : String :=
  (if i < 0 then "-" else "") ++ printNat i.natAbs

/-- The (at most three) fractional digits of `r/1000` for `0 ≤ r < 1000`,
with trailing zeros stripped, as JS number printing produces them. -/
def fracDigits3 (r : ℕ) : List Char :=
  if r % 100 = 0 then [Nat.digitChar (r / 100)]
  else if r % 10 = 0 then [Nat.digitChar (r / 100), Nat.digitChar (r / 10 % 10)]
  else [Nat.digitChar (r / 100), Nat.digitChar (r / 10 % 10), Nat.digitChar (r % 10)]

/-- Character-level JS printing of the rational `m/1000` (the result of
rounding to three decimals): sign, integer part, then a dot and the
fractional digits with trailing zeros stripped; no fractional part at all
when `m` is a multiple of 1000. -/
def printScaledChars (m : ℤ) : List Char :=
  (if m < 0 then ['-'] else [])
    ++ decDigits (m.natAbs / 1000)
    ++ (if m.natAbs % 1000 = 0 then [] else '.' :: fracDigits3 (m.natAbs % 1000))

/-- JS printing of the rational `m/1000`. -/
def printScaled (m : ℤ) : String := ⟨printScaledChars m⟩

/-- JS `String(x)` / template interpolation for the numbers produced on
these code paths; exact whenever `x` holds at most three decimals (which
is the case for every number the pipeline prints, since each one has
passed `roundToMaxThreeDecimals`). -/
def jsNumToString (x : ℚ) : String := printScaled (jsRound (x * 1000))

example : jsNumToString (9/2) = "4.5" := by
  have h : jsRound ((9 : ℚ)/2 * 1000) = 4500 := jsRound_eq_of (by norm_num) (by norm_num)
  unfold jsNumToString
  rw [h]
  decide

example : jsNumToString (63/1000) = "0.063" := by
  have h : jsRound ((63 : ℚ)/1000 * 1000) = 63 := jsRound_eq_of (by norm_num) (by norm_num)
  unfold jsNumToString
  rw [h]
  decide

example : jsNumToString (-1/2) = "-0.5" := by
  have h : jsRound ((-1 : ℚ)/2 * 1000) = -500 := jsRound_eq_of (by norm_num) (by norm_num)
  unfold jsNumToString
  rw [h]
  decide

/-! ## px→rem conversion (code.js lines 27-36) -/

/-- `convertPxToRem(pxValue, baseFontSize)` from code.js lines 27-36.
The `typeof`/`isNaN` guards always pass here because the argument is a
model number; the `baseFontSize === 0` guard falls back to px. -/
def convertPxToRem (pxValue : ℚ) (baseFontSize : ℚ) : String :=
  if baseFontSize = 0 then jsNumToString pxValue ++ "px"
  else jsNumToString (roundToMaxThreeDecimals (pxValue / baseFontSize)) ++ "rem"

/-! ## RGB→HSL (code.js lines 45-68) -/

/-- `rgbToHsl(r, g, b)` from code.js lines 45-68, returning the rounded
`(h, s, l)` triple (degrees, percent, percent).  The JS `switch (max)`
with strict equality picks the first matching case, modelled by the
if-chain. -/
def rgbToHsl (r g b : ℚ) : ℤ × ℤ × ℤ :=
  let mx := max r (max g b)
  let mn := min r (min g b)
  let l : ℚ := (mx + mn) / 2
  if mx = mn then (0, 0, jsRound (l * 100))
  else
    let d := mx - mn
    let s : ℚ := if l > 1/2 then d / (2 - mx - mn) else d / (mx + mn)
    let h0 : ℚ :=
      if mx = r then (g - b) / d + (if g < b then 6 else 0)
      else if mx = g then (b - r) / d + 2
      else (r - g) / d + 4
    let h : ℚ := h0 / 6
    (jsRound (h * 360), jsRound (s * 100), jsRound (l * 100))

example : rgbToHsl 1 0 0 = (0, 100, 50) := by
  unfold rgbToHsl
  norm_num
  refine ⟨jsRound_eq_of (by norm_num) (by norm_num),
    jsRound_eq_of (by norm_num) (by norm_num),
    jsRound_eq_of (by norm_num) (by norm_num)⟩

/-! ## JS `parseFloat`

`parseFloat` takes the longest prefix that parses as a decimal literal
(optional leading whitespace, optional sign, digits with an optional
decimal point, optional exponent) and ignores the rest; it returns `NaN`
(modelled as `none`) when no digits are found.  The converter treats the
`NaN` result as `0` at its call site. -/

def isDigitCh (c : Char) : Bool := '0' ≤ c && c ≤ '9'

def digitVal (c : Char) : ℕ := c.toNat - '0'.toNat

def isWsCh (c : Char) : Bool := c = ' ' || c = '\t' || c = '\n' || c = '\r'

/-- Consume a maximal run of decimal digits, extending the accumulated
value `v` and digit count `k`. -/
def parseDigitsAcc (v k : ℕ) : List Char → ℕ × ℕ × List Char
  | [] => (v, k, [])
  | c :: cs =>
    if isDigitCh c then parseDigitsAcc (v * 10 + digitVal c) (k + 1) cs
    else (v, k, c :: cs)

/-- Parse an optional exponent marker; when the marker is not followed by
at least one digit the exponent is not consumed (JS takes the longest
valid literal prefix). -/
def parseExp (cs : List Char) : ℤ :=
  match cs with
  | [] => 0
  | c :: rest =>
    if c = 'e' ∨ c = 'E' then
      let (sg, rest2) : ℤ × List Char :=
        match rest with
        | [] => (1, [])
        | c2 :: r => if c2 = '+' then (1, r) else if c2 = '-' then (-1, r) else (1, c2 :: r)
      let (v, k, _) := parseDigitsAcc 0 0 rest2
      if k = 0 then 0 else sg * v
    else 0

/-- The significand/exponent part of `parseFloat`, after the optional
sign has been consumed. -/
def parseAfterSign (neg : Bool) (cs2 : List Char) : Option ℚ :=
  let (ip, ki, cs3) := parseDigitsAcc 0 0 cs2
  let (fp, kf, cs4) :=
    match cs3 with
    | [] => ((0 : ℕ), (0 : ℕ), ([] : List Char))
    | c :: r => if c = '.' then parseDigitsAcc 0 0 r else (0, 0, c :: r)
  if ki = 0 ∧ kf = 0 then none
  else
    let ex := parseExp cs4
    let mant : ℚ := (ip : ℚ) + (fp : ℚ) / ((10 : ℚ) ^ kf)
    let value : ℚ := mant * (10 : ℚ) ^ ex
    some (if neg then -value else value)

/-- JS `parseFloat` on a character list. -/
def parseFloatChars (cs0 : List Char) : Option ℚ :=
  match cs0.dropWhile isWsCh with
  | [] => parseAfterSign false []
  | c :: r =>
    if c = '-' then parseAfterSign true r
    else if c = '+' then parseAfterSign false r
    else parseAfterSign false (c :: r)

/-- JS `parseFloat` on a string. -/
def parseFloatStr (s : String) : Option ℚ := parseFloatChars s.data

/-! ### Printing/parsing roundtrip

`parseFloat` recovers the exact value of a printed three-decimal rational
followed by a unit suffix such as `px`; this underlies the idempotence of
the value converter on unit-suffixed dimension strings. -/

def digitCharList : List Char := ['0', '1', '2', '3', '4'] ++ ['5', '6', '7', '8', '9']

theorem digitChar_mem {d : ℕ} (h : d < 10) : Nat.digitChar d ∈ digitCharList := by
  interval_cases d <;> decide

theorem digitChar_props {c : Char} (h : c ∈ digitCharList) :
    isDigitCh c = true ∧ isWsCh c = false ∧ c ≠ '-' ∧ c ≠ '+' ∧ c ≠ '.' ∧ c ≠ 'e' ∧ c ≠ 'E' := by
  fin_cases h <;> decide

theorem digitVal_digitChar {d : ℕ} (h : d < 10) : digitVal (Nat.digitChar d) = d := by
  interval_cases d <;> decide

theorem decDigits_ne_nil (n : ℕ) : decDigits n ≠ [] := by
  rw [decDigits_eq]
  split <;> simp

theorem decDigits_mem : ∀ n : ℕ, ∀ c ∈ decDigits n, c ∈ digitCharList := by
  intro n
  induction n using Nat.strong_induction_on with
  | _ n ih =>
    intro c hc
    rw [decDigits_eq] at hc
    by_cases h : n < 10
    · rw [if_pos h] at hc
      simp at hc
      subst hc
      exact digitChar_mem h
    · rw [if_neg h] at hc
      rcases List.mem_append.mp hc with hc | hc
      · exact ih (n / 10) (Nat.div_lt_self (by omega) (by norm_num)) c hc
      · simp at hc
        subst hc
        exact digitChar_mem (Nat.mod_lt n (by norm_num))

/-- A suffix whose first character cannot extend a numeric literal. -/
def sfxOk (cs : List Char) : Prop :=
  ∀ c r, cs = c :: r → isDigitCh c = false ∧ c ≠ '.' ∧ c ≠ 'e' ∧ c ≠ 'E'

theorem sfxOk_px : sfxOk ['p', 'x'] := by
  intro c r h
  cases h
  decide

theorem parseDigitsAcc_cons_digit (v k : ℕ) (c : Char) (cs : List Char)
    (h : isDigitCh c = true) :
    parseDigitsAcc v k (c :: cs) = parseDigitsAcc (v * 10 + digitVal c) (k + 1) cs := by
  simp [parseDigitsAcc, h]

theorem parseDigitsAcc_stop (v k : ℕ) {cs : List Char}
    (h : ∀ c r, cs = c :: r → isDigitCh c = false) :
    parseDigitsAcc v k cs = (v, k, cs) := by
  cases cs with
  | nil => rfl
  | cons c r =>
    unfold parseDigitsAcc
    rw [h c r rfl]
    simp

theorem parseDigitsAcc_decDigits :
    ∀ n v k : ℕ, ∀ rest : List Char,
      parseDigitsAcc v k (decDigits n ++ rest)
        = parseDigitsAcc (v * 10 ^ (decDigits n).length + n) (k + (decDigits n).length) rest := by
  intro n
  induction n using Nat.strong_induction_on with
  | _ n ih =>
    intro v k rest
    by_cases h : n < 10
    · rw [decDigits_eq, if_pos h, List.singleton_append,
        parseDigitsAcc_cons_digit v k _ rest (digitChar_props (digitChar_mem h)).1,
        digitVal_digitChar h]
      simp
    · have hmod : n % 10 < 10 := Nat.mod_lt n (by norm_num)
      rw [decDigits_eq, if_neg h, List.append_assoc, List.singleton_append,
        ih (n / 10) (Nat.div_lt_self (by omega) (by norm_num)),
        parseDigitsAcc_cons_digit _ _ _ rest (digitChar_props (digitChar_mem hmod)).1,
        digitVal_digitChar hmod]
      simp only [List.length_append, List.length_singleton]
      have h10 : 10 * (n / 10) + n % 10 = n := Nat.div_add_mod n 10
      have key : (v * 10 ^ (decDigits (n / 10)).length + n / 10) * 10 + n % 10
          = v * 10 ^ ((decDigits (n / 10)).length + 1) + n := by
        calc (v * 10 ^ (decDigits (n / 10)).length + n / 10) * 10 + n % 10
            = v * (10 ^ (decDigits (n / 10)).length * 10) + (10 * (n / 10) + n % 10) := by ring
          _ = v * 10 ^ ((decDigits (n / 10)).length + 1) + n := by rw [h10, pow_succ]
      rw [key]
      congr 1

theorem decDigits_len_pos (n : ℕ) : 0 < (decDigits n).length := by
  rw [decDigits_eq]
  split <;> simp

theorem decDigits_head (n : ℕ) : ∃ c r, decDigits n = c :: r ∧ c ∈ digitCharList := by
  rcases hd : decDigits n with _ | ⟨c, r⟩
  · exact absurd hd (decDigits_ne_nil n)
  · have hc : c ∈ decDigits n := by
      rw [hd]
      exact List.mem_cons_self c r
    exact ⟨c, r, rfl, decDigits_mem n c hc⟩

theorem parseExp_stop {sfx : List Char} (hs : sfxOk sfx) : parseExp sfx = 0 := by
  cases sfx with
  | nil => rfl
  | cons c r =>
    obtain ⟨_, _, he, hE⟩ := hs c r rfl
    simp [parseExp, he, hE]

theorem parseDigitsAcc_frac (r : ℕ) (h0 : 0 < r) (h1 : r < 1000) {sfx : List Char}
    (hsd : ∀ c rr, sfx = c :: rr → isDigitCh c = false) :
    ∃ f k : ℕ, parseDigitsAcc 0 0 (fracDigits3 r ++ sfx) = (f, k, sfx) ∧ 0 < k ∧
      (f : ℚ) / (10 : ℚ) ^ k = (r : ℚ) / 1000 := by
  have h100 : r / 100 < 10 := by omega
  have h10m : r / 10 % 10 < 10 := Nat.mod_lt _ (by norm_num)
  have hm10 : r % 10 < 10 := Nat.mod_lt _ (by norm_num)
  unfold fracDigits3
  by_cases hc1 : r % 100 = 0
  · rw [if_pos hc1]
    refine ⟨r / 100, 1, ?_, by norm_num, ?_⟩
    · rw [List.singleton_append,
        parseDigitsAcc_cons_digit _ _ _ _ (digitChar_props (digitChar_mem h100)).1,
        digitVal_digitChar h100, parseDigitsAcc_stop _ _ hsd]
      simp
    · have hq : (100 : ℚ) * ((r / 100 : ℕ) : ℚ) = (r : ℚ) := by
        exact_mod_cast congrArg (fun x : ℕ => (x : ℚ)) (by omega : 100 * (r / 100) = r)
      rw [pow_one]
      field_simp
      linarith
  · rw [if_neg hc1]
    by_cases hc2 : r % 10 = 0
    · rw [if_pos hc2]
      refine ⟨(r / 100) * 10 + r / 10 % 10, 2, ?_, by norm_num, ?_⟩
      · rw [show [Nat.digitChar (r / 100), Nat.digitChar (r / 10 % 10)] ++ sfx
            = Nat.digitChar (r / 100) :: (Nat.digitChar (r / 10 % 10) :: sfx) from rfl,
          parseDigitsAcc_cons_digit _ _ _ _ (digitChar_props (digitChar_mem h100)).1,
          digitVal_digitChar h100,
          parseDigitsAcc_cons_digit _ _ _ _ (digitChar_props (digitChar_mem h10m)).1,
          digitVal_digitChar h10m, parseDigitsAcc_stop _ _ hsd]
        simp
      · have hf : (r / 100) * 10 + r / 10 % 10 = r / 10 := by omega
        have hq : (10 : ℚ) * ((r / 10 : ℕ) : ℚ) = (r : ℚ) := by
          exact_mod_cast congrArg (fun x : ℕ => (x : ℚ)) (by omega : 10 * (r / 10) = r)
        rw [hf]
        norm_num
        field_simp
        linarith
    · rw [if_neg hc2]
      refine ⟨((r / 100) * 10 + r / 10 % 10) * 10 + r % 10, 3, ?_, by norm_num, ?_⟩
      · rw [show [Nat.digitChar (r / 100), Nat.digitChar (r / 10 % 10), Nat.digitChar (r % 10)]
              ++ sfx
            = Nat.digitChar (r / 100)
              :: (Nat.digitChar (r / 10 % 10) :: (Nat.digitChar (r % 10) :: sfx)) from rfl,
          parseDigitsAcc_cons_digit _ _ _ _ (digitChar_props (digitChar_mem h100)).1,
          digitVal_digitChar h100,
          parseDigitsAcc_cons_digit _ _ _ _ (digitChar_props (digitChar_mem h10m)).1,
          digitVal_digitChar h10m,
          parseDigitsAcc_cons_digit _ _ _ _ (digitChar_props (digitChar_mem hm10)).1,
          digitVal_digitChar hm10, parseDigitsAcc_stop _ _ hsd]
        simp
      · have hf : ((r / 100) * 10 + r / 10 % 10) * 10 + r % 10 = r := by omega
        rw [hf]
        norm_num

theorem parseAfterSign_printBody (n : ℕ) (neg : Bool) {sfx : List Char} (hs : sfxOk sfx) :
    parseAfterSign neg
        (decDigits (n / 1000)
          ++ ((if n % 1000 = 0 then [] else '.' :: fracDigits3 (n % 1000)) ++ sfx))
      = some (if neg then -((n : ℚ) / 1000) else (n : ℚ) / 1000) := by
  have hLpos := decDigits_len_pos (n / 1000)
  have hL0 : ¬(0 + (decDigits (n / 1000)).length = 0 ∧ (0 : ℕ) = 0) := by omega
  have hsd : ∀ c r, sfx = c :: r → isDigitCh c = false := fun c r h => (hs c r h).1
  have hcast : ((n / 1000 : ℕ) : ℚ) = (n : ℚ) / 1000 - ((n % 1000 : ℕ) : ℚ) / 1000 := by
    have hq : (1000 : ℚ) * ((n / 1000 : ℕ) : ℚ) + ((n % 1000 : ℕ) : ℚ) = (n : ℚ) := by
      exact_mod_cast congrArg (fun x : ℕ => (x : ℚ))
        (by omega : 1000 * (n / 1000) + n % 1000 = n)
    field_simp
    linarith
  by_cases hz : n % 1000 = 0
  · rw [if_pos hz, List.nil_append]
    unfold parseAfterSign
    rw [parseDigitsAcc_decDigits, parseDigitsAcc_stop _ _ hsd]
    have hcast0 : ((n / 1000 : ℕ) : ℚ) = (n : ℚ) / 1000 := by
      rw [hcast, hz]
      simp
    cases sfx with
    | nil =>
      simp only [zero_mul, zero_add, hL0, if_false, ite_false]
      simp [parseExp, hcast0, hL0, decDigits_ne_nil]
    | cons c r =>
      obtain ⟨hcd, hcdot, _, _⟩ := hs c r rfl
      simp only [zero_mul, zero_add]
      simp [hcdot, hL0, parseExp_stop hs, hcast0, decDigits_ne_nil]
  · rw [if_neg hz]
    obtain ⟨f, k, hfk, hk, hval⟩ :=
      parseDigitsAcc_frac (n % 1000) (by omega) (Nat.mod_lt _ (by norm_num)) hsd
    have hsd2 : ∀ c r, ('.' :: (fracDigits3 (n % 1000) ++ sfx)) = c :: r
        → isDigitCh c = false := by
      intro c r h
      cases h
      decide
    unfold parseAfterSign
    rw [List.cons_append, parseDigitsAcc_decDigits, parseDigitsAcc_stop _ _ hsd2]
    simp only [zero_mul, zero_add]
    simp only [show ('.' : Char) = '.' from rfl, if_pos, hfk, parseExp_stop hs]
    have hsum : ((n / 1000 : ℕ) : ℚ) + (f : ℚ) / (10 : ℚ) ^ k = (n : ℚ) / 1000 := by
      rw [hval, hcast]
      ring
    simp [hL0, hsum, decDigits_ne_nil, hk.ne']

theorem parseFloatChars_printScaled (m : ℤ) {sfx : List Char} (hs : sfxOk sfx) :
    parseFloatChars (printScaledChars m ++ sfx) = some ((m : ℚ) / 1000) := by
  obtain ⟨c, cr, hdd, hcmem⟩ := decDigits_head (m.natAbs / 1000)
  obtain ⟨hdig, hws, hminus, hplus, _, _, _⟩ := digitChar_props hcmem
  by_cases hm : m < 0
  · have hq : ((m.natAbs : ℕ) : ℚ) = -(m : ℚ) := by
      have hz : (m.natAbs : ℤ) = -m := by omega
      rw [show ((m.natAbs : ℕ) : ℚ) = ((m.natAbs : ℤ) : ℚ) from (Int.cast_natCast _).symm, hz]
      push_cast
      ring
    have hshape : printScaledChars m ++ sfx
        = '-' :: (decDigits (m.natAbs / 1000)
            ++ ((if m.natAbs % 1000 = 0 then []
                  else '.' :: fracDigits3 (m.natAbs % 1000)) ++ sfx)) := by
      unfold printScaledChars
      rw [if_pos hm]
      simp [List.append_assoc]
    rw [hshape]
    unfold parseFloatChars
    simp only [List.dropWhile_cons, show isWsCh '-' = false from rfl, if_false,
      Bool.false_eq_true, ite_false]
    rw [if_pos trivial, parseAfterSign_printBody _ true hs]
    simp only [if_true, ite_true]
    rw [show -(((m.natAbs : ℕ) : ℚ) / 1000) = (m : ℚ) / 1000 by rw [hq]; ring]
  · have hq : ((m.natAbs : ℕ) : ℚ) = (m : ℚ) := by
      have hz : (m.natAbs : ℤ) = m := by omega
      rw [show ((m.natAbs : ℕ) : ℚ) = ((m.natAbs : ℤ) : ℚ) from (Int.cast_natCast _).symm, hz]
    have hshape : printScaledChars m ++ sfx
        = decDigits (m.natAbs / 1000)
            ++ ((if m.natAbs % 1000 = 0 then []
                  else '.' :: fracDigits3 (m.natAbs % 1000)) ++ sfx) := by
      unfold printScaledChars
      rw [if_neg hm]
      simp [List.append_assoc]
    rw [hshape, hdd]
    unfold parseFloatChars
    simp only [List.cons_append, List.dropWhile_cons, hws, Bool.false_eq_true, if_false,
      ite_false]
    rw [if_neg hminus, if_neg hplus, ← List.cons_append, ← hdd,
      parseAfterSign_printBody _ false hs]
    simp only [ite_false, if_false, Bool.false_eq_true]
    rw [hq]

/-- Round trip: `parseFloat` applied to a printed three-decimal value with
a `px` suffix recovers the value. -/
theorem parseFloatStr_printScaled_px (m : ℤ) :
    parseFloatStr (printScaled m ++ "px") = some ((m : ℚ) / 1000) := by
  have hdata : (printScaled m ++ "px").data = printScaledChars m ++ ['p', 'x'] := rfl
  unfold parseFloatStr
  rw [hdata]
  exact parseFloatChars_printScaled m sfxOk_px

/-! ## Raw Figma values

`FVal` models the JavaScript values that reach the converter: `null` (and
`undefined`, which the converter treats identically), numbers, strings,
booleans, color objects (whose `a` channel may be absent), and
`VARIABLE_ALIAS` objects. -/

inductive FVal where
  | fnull
  | fnum (q : ℚ)
  | fstr (s : String)
  | fbool (b : Bool)
  | fcolor (r g b : ℚ) (a : Option ℚ)
  | falias (id : String)
  deriving DecidableEq, Repr

open FVal

/-- JS truthiness (`!!value`). -/
def jsTruthy : FVal → Bool
  | fnull => false
  | fnum q => decide (q ≠ 0)
  | fstr s => decide (s ≠ "")
  | fbool b => b
  | fcolor _ _ _ _ => true
  | falias _ => true

/-- JS `String(value)` for the values that can reach the converter. -/
def jsToString : FVal → String
  | fnull => "null"
  | fnum q => jsNumToString q
  | fstr s => s
  | fbool b => if b then "true" else "false"
  | fcolor _ _ _ _ => "[object Object]"
  | falias _ => "[object Object]"

/-- JS `parseFloat(value)`: the value is coerced to a string and the
longest numeric prefix is parsed; `"null"`, `"true"`, `"false"` and
`"[object Object]"` all give `NaN` (`none`). -/
def parseFloatVal : FVal → Option ℚ
  | fnum q => some q
  | fstr s => parseFloatStr s
  | _ => none

/-! ## Hex/hsla color rendering (code.js lines 1232-1253) -/

/-- JS `i.toString(16)` (lowercase, with a sign for negatives). -/
def toHexString (i : ℤ) : String :=
  (if i < 0 then "-" else "") ++ ⟨hexDigits i.natAbs⟩

/-- JS `s.padStart(2, '0')`. -/
def padStart2 (s : String) : String :=
  ⟨List.replicate (2 - s.data.length) '0' ++ s.data⟩

/-- One color channel as two lowercase hex digits:
`Math.round(v * 255).toString(16).padStart(2, '0')`. -/
def hexByte (i : ℤ) : String := padStart2 (toHexString i)

/-- The 6-digit hex rendering of an opaque color (code.js lines 1245-1249). -/
def hexColorString (r g b : ℚ) : String :=
  "#" ++ hexByte (jsRound (r * 255)) ++ hexByte (jsRound (g * 255)) ++ hexByte (jsRound (b * 255))

/-- The `hsla(h, s%, l%, a)` rendering of a non-opaque color
(code.js lines 1239-1241), with alpha rounded to three decimals. -/
def hslaColorString (r g b a : ℚ) : String :=
  "hsla(" ++ printInt (rgbToHsl r g b).1 ++ ", " ++ printInt (rgbToHsl r g b).2.1
    ++ "%, " ++ printInt (rgbToHsl r g b).2.2 ++ "%, "
    ++ jsNumToString (roundToMaxThreeDecimals a) ++ ")"

/-- The DTCG types that require a `px` (or `rem`) unit
(code.js lines 1268-1275). -/
def TYPES_REQUIRING_PX : List String :=
  ["dimension", "fontSize", "lineHeight", "letterSpacing", "borderRadius", "borderWidth"]

/-- `convertFigmaValueToDTCG(value, figmaType, dtcgType)` from code.js
lines 1217-1294.  The two module-level settings `useRemUnits` and
`remBaseFontSize` are passed explicitly. -/
def convertFigmaValueToDTCG (useRemUnits : Bool) (remBaseFontSize : ℚ)
    (value : FVal) (figmaType : String) (dtcgType : String) : FVal :=
  match value with
  | fnull => fnull
  | falias id => fstr ("\x7b" ++ id ++ "\x7d")
  | v =>
    if figmaType = "COLOR" then
      match v with
      | fcolor r g b a? =>
        match a? with
        | some a =>
          if a ≠ 1 then fstr (hslaColorString r g b a) else fstr (hexColorString r g b)
        | none => fstr (hexColorString r g b)
      | _ => v
    else if figmaType = "BOOLEAN" then fbool (jsTruthy v)
    else if figmaType = "STRING" then fstr (jsToString v)
    else if figmaType = "FLOAT" ∨ figmaType = "NUMBER" then
      let roundedNum : ℚ :=
        match parseFloatVal v with
        | none => 0
        | some q => roundToMaxThreeDecimals q
      if dtcgType ∈ TYPES_REQUIRING_PX then
        if useRemUnits then fstr (convertPxToRem roundedNum remBaseFontSize)
        else fstr (jsNumToString roundedNum ++ "px")
      else fnum roundedNum
    else v

/-! ## Scope-based type classification (code.js lines 96-120, 1115-1209) -/

def PIXEL_DIMENSION_SCOPES : List String :=
  ["CORNER_RADIUS", "WIDTH_HEIGHT", "GAP", "STROKE_WEIGHT",
   "FONT_SIZE", "LINE_HEIGHT", "LETTER_SPACING",
   "PARAGRAPH_SPACING", "PARAGRAPH_INDENT",
   "EFFECT_RADIUS", "EFFECT_OFFSET_X", "EFFECT_OFFSET_Y", "EFFECT_SPREAD"]

def SPECIFIC_PIXEL_DIMENSION_TYPE_MAP : List (String × String) :=
  [("FONT_SIZE", "fontSize"), ("LINE_HEIGHT", "lineHeight"),
   ("LETTER_SPACING", "letterSpacing"), ("CORNER_RADIUS", "borderRadius"),
   ("STROKE_WEIGHT", "borderWidth")]

def UNITLESS_NUMERIC_SCOPES : List String := ["FONT_WEIGHT", "LAYER_OPACITY"]

def SPECIFIC_UNITLESS_NUMERIC_TYPE_MAP : List (String × String) :=
  [("FONT_WEIGHT", "fontWeight"), ("LAYER_OPACITY", "opacity")]

/-- `pat.isPrefixOfChars hay`: does `hay` start with `pat`? -/
def isPatAtHead : List Char → List Char → Bool
  | [], _ => true
  | _ :: _, [] => false
  | p :: ps, c :: cs => p = c && isPatAtHead ps cs

/-- JS `hay.includes(pat)`. -/
def containsSub (pat : List Char) : List Char → Bool
  | [] => isPatAtHead pat []
  | c :: t => isPatAtHead pat (c :: t) || containsSub pat t

def strIncludes (s pat : String) : Bool := containsSub pat.data s.data

/-- JS `s.toLowerCase()` (ASCII). -/
def strToLower (s : String) : String := ⟨s.data.map Char.toLower⟩

/-- Append to a JS `Set` modelled as an insertion-ordered duplicate-free
list. -/
def addUniq (l : List String) (s : String) : List String :=
  if s ∈ l then l else l ++ [s]

/-- One iteration of the scope-categorisation loop of `resolveDTCGType`
(code.js lines 1149-1157): bump the occurrence counter of the matching
category and add the scope to the insertion-ordered matched set. -/
def categorizeStep (st : ℕ × ℕ × List String × List String) (s : String) :
    ℕ × ℕ × List String × List String :=
  if s ∈ PIXEL_DIMENSION_SCOPES then (st.1 + 1, st.2.1, addUniq st.2.2.1 s, st.2.2.2)
  else if s ∈ UNITLESS_NUMERIC_SCOPES then (st.1, st.2.1 + 1, st.2.2.1, addUniq st.2.2.2 s)
  else st

/-- The scope-categorisation loop of `resolveDTCGType`
(code.js lines 1142-1157): occurrence counters plus insertion-ordered
matched-scope sets. -/
def categorizeScopes (scopes : List String) : ℕ × ℕ × List String × List String :=
  scopes.foldl categorizeStep (0, 0, [], [])

/-- The variable record fields used by the pipeline.  A missing `name` is
modelled by the empty string (falsy, exactly as the source's guards treat
it), and a missing `valuesByMode` by `none`. -/
structure FigVar where
  id : String
  name : String
  resolvedType : String
  scopes : List String
  valuesByMode : Option (List (String × FVal))
  deriving DecidableEq, Repr

/-- The `FLOAT` decision logic of `resolveDTCGType`
(code.js lines 1139-1205), taking the categorisation counters and the
matched-scope sets; `cat = (pixelCount, unitlessCount, matchedPixel,
matchedUnitless)`. -/
def resolveFloatBranch (name : String) (scopes : List String)
    (cat : ℕ × ℕ × List String × List String) : String :=
  if cat.1 > 0 ∧ cat.2.1 = 0 then
    if cat.1 = 1 then
      match cat.2.2.1.head? with
      | some s =>
        match SPECIFIC_PIXEL_DIMENSION_TYPE_MAP.lookup s with
        | some t => t
        | none => "dimension"
      | none => "dimension"
    else "dimension"
  else if cat.2.1 > 0 ∧ cat.1 = 0 then
    if cat.2.1 = 1 then
      match cat.2.2.2.head? with
      | some s =>
        match SPECIFIC_UNITLESS_NUMERIC_TYPE_MAP.lookup s with
        | some t => t
        | none => "number"
      | none => "number"
    else "number"
  else if cat.1 > 0 ∧ cat.2.1 > 0 then "number"
  else if name ≠ "" ∧ (strIncludes (strToLower name) "fontweight"
      ∨ strIncludes (strToLower name) "font-weight") then "fontWeight"
  else if scopes.any (fun s => s = "ALL_SCOPES" ∨ s = "TEXT_CONTENT") then "number"
  else "number"

/-- `resolveDTCGType(variable)` from code.js lines 1115-1209. -/
def resolveDTCGType (v : FigVar) : String :=
  if v.resolvedType = "" then "number"
  else if v.resolvedType = "COLOR" then "color"
  else if v.resolvedType = "STRING" then
    if v.name ≠ "" ∧ (strIncludes (strToLower v.name) "fontfamily"
        ∨ strIncludes (strToLower v.name) "font-family") then "fontFamily"
    else "string"
  else if v.resolvedType = "BOOLEAN" then "string"
  else if v.resolvedType = "FLOAT" then
    resolveFloatBranch v.name v.scopes (categorizeScopes v.scopes)
  else "number"

/-! ## Helper lemmas for the color claims -/

theorem rgbToHsl_red : rgbToHsl 1 0 0 = (0, 100, 50) := by
  unfold rgbToHsl
  norm_num
  refine ⟨jsRound_eq_of (by norm_num) (by norm_num),
    jsRound_eq_of (by norm_num) (by norm_num),
    jsRound_eq_of (by norm_num) (by norm_num)⟩

def hexLowerChars : List Char :=
  digitCharList ++ ['a', 'b', 'c', 'd', 'e', 'f']

theorem hexDigitChar_mem {d : ℕ} (h : d < 16) : Nat.digitChar d ∈ hexLowerChars := by
  interval_cases d <;> decide

theorem hexDigits_byte {n : ℕ} (h : n < 256) :
    (1 ≤ (hexDigits n).length ∧ (hexDigits n).length ≤ 2)
      ∧ ∀ c ∈ hexDigits n, c ∈ hexLowerChars := by
  by_cases h16 : n < 16
  · rw [hexDigits_eq, if_pos h16]
    refine ⟨by simp, ?_⟩
    intro c hc
    simp at hc
    subst hc
    exact hexDigitChar_mem h16
  · have hdiv : n / 16 < 16 := by omega
    have hmod : n % 16 < 16 := Nat.mod_lt _ (by norm_num)
    rw [hexDigits_eq, if_neg h16, hexDigits_eq, if_pos hdiv]
    refine ⟨by simp, ?_⟩
    intro c hc
    simp at hc
    rcases hc with hc | hc <;> subst hc
    · exact hexDigitChar_mem hdiv
    · exact hexDigitChar_mem hmod

theorem hexByte_spec {i : ℤ} (h0 : 0 ≤ i) (h1 : i ≤ 255) :
    (hexByte i).data.length = 2 ∧ ∀ c ∈ (hexByte i).data, c ∈ hexLowerChars := by
  have hn : i.natAbs < 256 := by omega
  obtain ⟨⟨hl1, hl2⟩, hmem⟩ := hexDigits_byte hn
  have hts : toHexString i = ⟨hexDigits i.natAbs⟩ := by
    unfold toHexString
    rw [if_neg (by omega)]
    rfl
  unfold hexByte padStart2
  rw [hts]
  constructor
  · simp only [List.length_append, List.length_replicate]
    omega
  · intro c hc
    rcases List.mem_append.mp hc with hc | hc
    · rw [List.eq_of_mem_replicate hc]
      decide
    · exact hmem c hc

theorem jsRound_bounds_255 {r : ℚ} (h0 : 0 ≤ r) (h1 : r ≤ 1) :
    0 ≤ jsRound (r * 255) ∧ jsRound (r * 255) ≤ 255 := by
  rw [jsRound_eq]
  constructor
  · exact Int.le_floor.mpr (by push_cast; linarith)
  · have h := Int.floor_lt.mpr (show r * 255 + 1/2 < ((256 : ℤ) : ℚ) by push_cast; linarith)
    omega

theorem hexColorString_spec {r g b : ℚ}
    (hr0 : 0 ≤ r) (hr1 : r ≤ 1) (hg0 : 0 ≤ g) (hg1 : g ≤ 1) (hb0 : 0 ≤ b) (hb1 : b ≤ 1) :
    (hexColorString r g b).data.length = 7
      ∧ (hexColorString r g b).data.head? = some '#'
      ∧ ∀ c ∈ (hexColorString r g b).data.tail, c ∈ hexLowerChars := by
  obtain ⟨hlr, hmr⟩ :=
    hexByte_spec (jsRound_bounds_255 hr0 hr1).1 (jsRound_bounds_255 hr0 hr1).2
  obtain ⟨hlg, hmg⟩ :=
    hexByte_spec (jsRound_bounds_255 hg0 hg1).1 (jsRound_bounds_255 hg0 hg1).2
  obtain ⟨hlb, hmb⟩ :=
    hexByte_spec (jsRound_bounds_255 hb0 hb1).1 (jsRound_bounds_255 hb0 hb1).2
  have hd : (hexColorString r g b).data
      = '#' :: ((hexByte (jsRound (r * 255))).data ++ ((hexByte (jsRound (g * 255))).data
          ++ (hexByte (jsRound (b * 255))).data)) := by
    unfold hexColorString
    simp [String.data_append]
  rw [hd]
  refine ⟨?_, rfl, ?_⟩
  · simp [hlr, hlg, hlb]
  · intro c hc
    simp only [List.tail_cons] at hc
    rcases List.mem_append.mp hc with hc | hc
    · exact hmr c hc
    rcases List.mem_append.mp hc with hc | hc
    · exact hmg c hc
    · exact hmb c hc

theorem convert_color_branch (u : Bool) (β : ℚ) (r g b a : ℚ) (dt : String) :
    convertFigmaValueToDTCG u β (fcolor r g b (some a)) "COLOR" dt
      = if a ≠ 1 then fstr (hslaColorString r g b a) else fstr (hexColorString r g b) := by
  simp [convertFigmaValueToDTCG]

theorem hexColorString_red : hexColorString 1 0 0 = "#ff0000" := by
  have h255 : jsRound ((1 : ℚ) * 255) = 255 := jsRound_eq_of (by norm_num) (by norm_num)
  have h0 : jsRound ((0 : ℚ) * 255) = 0 := jsRound_eq_of (by norm_num) (by norm_num)
  unfold hexColorString
  rw [h255, h0]
  decide

/-- C1 (amended).  For channels in `[0,1]`, the color converter renders
the 6-digit lowercase hex string built from the 0-255-rounded channels
exactly when the alpha channel is `1` (or absent), and otherwise renders
`hsla(h, s%, l%, a)` from the RGB→HSL conversion with alpha rounded to 3
decimal places; `{r:1, g:0, b:0, a:1}` converts to `"#ff0000"`.  (The
claim's threshold `alpha ≥ 0.999` does not match the source, which tests
`value.a !== 1`; see the counterexample.) -/
theorem claim_C1 (u : Bool) (β : ℚ) (r g b a : ℚ) (dt : String)
    (hr0 : 0 ≤ r) (hr1 : r ≤ 1) (hg0 : 0 ≤ g) (hg1 : g ≤ 1) (hb0 : 0 ≤ b) (hb1 : b ≤ 1) :
    (a = 1 →
      convertFigmaValueToDTCG u β (fcolor r g b (some a)) "COLOR" dt
          = fstr (hexColorString r g b)
        ∧ (hexColorString r g b).data.length = 7
        ∧ (hexColorString r g b).data.head? = some '#'
        ∧ ∀ c ∈ (hexColorString r g b).data.tail, c ∈ hexLowerChars)
    ∧ (a ≠ 1 →
      convertFigmaValueToDTCG u β (fcolor r g b (some a)) "COLOR" dt
          = fstr (hslaColorString r g b a))
    ∧ convertFigmaValueToDTCG u β (fcolor 1 0 0 (some 1)) "COLOR" dt = fstr "#ff0000" := by
  refine ⟨?_, ?_, ?_⟩
  · intro ha
    subst ha
    obtain ⟨h1, h2, h3⟩ := hexColorString_spec hr0 hr1 hg0 hg1 hb0 hb1
    refine ⟨?_, h1, h2, h3⟩
    rw [convert_color_branch]
    simp
  · intro ha
    rw [convert_color_branch, if_pos ha]
  · rw [convert_color_branch]
    simp [hexColorString_red]

/-- C1 counterexample: at alpha `0.999` the claim demands the hex
rendering `"#ff0000"`, but the source tests `value.a !== 1` and renders
the hsla string. -/
theorem claim_C1_counterexample :
    convertFigmaValueToDTCG false 16 (fcolor 1 0 0 (some (999/1000))) "COLOR" "color"
        = fstr "hsla(0, 100%, 50%, 0.999)"
      ∧ ((999 : ℚ)/1000 ≥ 999/1000)
      ∧ "hsla(0, 100%, 50%, 0.999)" ≠ "#ff0000" := by
  have ha : ((999 : ℚ)/1000) ≠ 1 := by norm_num
  have hrd : jsRound ((999 : ℚ)/1000 * 1000) = 999 := jsRound_eq_of (by norm_num) (by norm_num)
  have hrd2 : jsRound (roundToMaxThreeDecimals ((999 : ℚ)/1000) * 1000) = 999 := by
    unfold roundToMaxThreeDecimals
    rw [hrd]
    exact jsRound_eq_of (by norm_num) (by norm_num)
  refine ⟨?_, le_refl _, by decide⟩
  rw [convert_color_branch, if_pos ha]
  unfold hslaColorString
  rw [rgbToHsl_red]
  unfold jsNumToString
  rw [hrd2]
  decide

/-- C1 witness. -/
theorem claim_C1_witness :
    convertFigmaValueToDTCG false 16 (fcolor 1 0 0 (some 1)) "COLOR" "color" = fstr "#ff0000" := by
  have h := claim_C1 false 16 1 0 0 1 "color" (by norm_num) (by norm_num) (by norm_num)
    (by norm_num) (by norm_num) (by norm_num)
  exact h.2.2

/-- C4 (amended).  The classifier assigns output type `string` to every
Boolean-kind variable, but the value converter returns the raw boolean
`!!value` — never a string — as the token value; the stringification the
claim describes does not happen in `convertFigmaValueToDTCG`. -/
theorem claim_C4 :
    (∀ (idv name : String) (scopes : List String) (vbm : Option (List (String × FVal))),
      resolveDTCGType ⟨idv, name, "BOOLEAN", scopes, vbm⟩ = "string")
    ∧ (∀ (u : Bool) (β : ℚ) (v : FVal) (dt : String),
      v ≠ fnull → (∀ s, v ≠ falias s) →
        convertFigmaValueToDTCG u β v "BOOLEAN" dt = fbool (jsTruthy v)
        ∧ ∀ s, convertFigmaValueToDTCG u β v "BOOLEAN" dt ≠ fstr s) := by
  constructor
  · intro idv name scopes vbm
    simp [resolveDTCGType]
  · intro u β v dt hnull halias
    have hb : convertFigmaValueToDTCG u β v "BOOLEAN" dt = fbool (jsTruthy v) := by
      cases v with
      | fnull => exact absurd rfl hnull
      | falias s => exact absurd rfl (halias s)
      | fnum q => simp [convertFigmaValueToDTCG]
      | fstr s => simp [convertFigmaValueToDTCG]
      | fbool b => simp [convertFigmaValueToDTCG]
      | fcolor r g b a => simp [convertFigmaValueToDTCG]
    refine ⟨hb, ?_⟩
    intro s
    rw [hb]
    exact fun h => FVal.noConfusion h

/-- C4 counterexample: converting the boolean literal `true` of a
Boolean-kind variable yields the raw boolean value, not the string
`"true"` the claim requires. -/
theorem claim_C4_counterexample :
    convertFigmaValueToDTCG false 16 (fbool true) "BOOLEAN" "string" = fbool true
      ∧ fbool true ≠ fstr "true" := by
  constructor
  · simp [convertFigmaValueToDTCG, jsTruthy]
  · exact fun h => FVal.noConfusion h

/-! ## Helper lemmas for the classifier claim -/

theorem pixel_unitless_disjoint :
    ∀ s ∈ UNITLESS_NUMERIC_SCOPES, s ∉ PIXEL_DIMENSION_SCOPES := by decide

theorem categorize_fold :
    ∀ (scopes : List String) (pc uc : ℕ) (mp mu : List String),
      scopes.Nodup → (∀ s ∈ scopes, s ∉ mp) → (∀ s ∈ scopes, s ∉ mu) →
      scopes.foldl categorizeStep (pc, uc, mp, mu)
        = (pc + (scopes.filter (fun s => decide (s ∈ PIXEL_DIMENSION_SCOPES))).length,
           uc + (scopes.filter (fun s =>
              decide (s ∉ PIXEL_DIMENSION_SCOPES ∧ s ∈ UNITLESS_NUMERIC_SCOPES))).length,
           mp ++ scopes.filter (fun s => decide (s ∈ PIXEL_DIMENSION_SCOPES)),
           mu ++ scopes.filter (fun s =>
              decide (s ∉ PIXEL_DIMENSION_SCOPES ∧ s ∈ UNITLESS_NUMERIC_SCOPES))) := by
  intro scopes
  induction scopes with
  | nil => intro pc uc mp mu _ _ _; simp
  | cons s rest ih =>
    intro pc uc mp mu hnd hmp hmu
    have hnd' : rest.Nodup := (List.nodup_cons.mp hnd).2
    have hs : s ∉ rest := (List.nodup_cons.mp hnd).1
    rw [List.foldl_cons]
    by_cases hp : s ∈ PIXEL_DIMENSION_SCOPES
    · have hstep : categorizeStep (pc, uc, mp, mu) s = (pc + 1, uc, mp ++ [s], mu) := by
        unfold categorizeStep addUniq
        rw [if_pos hp, if_neg (hmp s (by simp))]
      rw [hstep, ih (pc + 1) uc (mp ++ [s]) mu hnd'
        (fun t ht => by
          simp only [List.mem_append, List.mem_singleton]
          push_neg
          exact ⟨hmp t (by simp [ht]), fun he => hs (he ▸ ht)⟩)
        (fun t ht => hmu t (by simp [ht]))]
      have hfp : (s :: rest).filter (fun s => decide (s ∈ PIXEL_DIMENSION_SCOPES))
          = s :: rest.filter (fun s => decide (s ∈ PIXEL_DIMENSION_SCOPES)) := by
        simp [List.filter_cons, hp]
      have hfu : (s :: rest).filter (fun s =>
            decide (s ∉ PIXEL_DIMENSION_SCOPES ∧ s ∈ UNITLESS_NUMERIC_SCOPES))
          = rest.filter (fun s =>
            decide (s ∉ PIXEL_DIMENSION_SCOPES ∧ s ∈ UNITLESS_NUMERIC_SCOPES)) := by
        simp [List.filter_cons, hp]
      rw [hfp, hfu]
      simp only [List.length_cons]
      refine congrArg₂ _ (by omega) (congrArg₂ _ rfl (congrArg₂ _ ?_ rfl))
      simp
    · by_cases hu : s ∈ UNITLESS_NUMERIC_SCOPES
      · have hstep : categorizeStep (pc, uc, mp, mu) s = (pc, uc + 1, mp, mu ++ [s]) := by
          unfold categorizeStep addUniq
          rw [if_neg hp, if_pos hu, if_neg (hmu s (by simp))]
        rw [hstep, ih pc (uc + 1) mp (mu ++ [s]) hnd'
          (fun t ht => hmp t (by simp [ht]))
          (fun t ht => by
            simp only [List.mem_append, List.mem_singleton]
            push_neg
            exact ⟨hmu t (by simp [ht]), fun he => hs (he ▸ ht)⟩)]
        have hfp : (s :: rest).filter (fun s => decide (s ∈ PIXEL_DIMENSION_SCOPES))
            = rest.filter (fun s => decide (s ∈ PIXEL_DIMENSION_SCOPES)) := by
          simp [List.filter_cons, hp]
        have hfu : (s :: rest).filter (fun s =>
              decide (s ∉ PIXEL_DIMENSION_SCOPES ∧ s ∈ UNITLESS_NUMERIC_SCOPES))
            = s :: rest.filter (fun s =>
              decide (s ∉ PIXEL_DIMENSION_SCOPES ∧ s ∈ UNITLESS_NUMERIC_SCOPES)) := by
          simp [List.filter_cons, hp, hu]
        rw [hfp, hfu]
        simp only [List.length_cons]
        refine congrArg₂ _ rfl (congrArg₂ _ (by omega) (congrArg₂ _ rfl ?_))
        simp
      · have hstep : categorizeStep (pc, uc, mp, mu) s = (pc, uc, mp, mu) := by
          unfold categorizeStep
          rw [if_neg hp, if_neg hu]
        rw [hstep, ih pc uc mp mu hnd'
          (fun t ht => hmp t (by simp [ht])) (fun t ht => hmu t (by simp [ht]))]
        have hfp : (s :: rest).filter (fun s => decide (s ∈ PIXEL_DIMENSION_SCOPES))
            = rest.filter (fun s => decide (s ∈ PIXEL_DIMENSION_SCOPES)) := by
          simp [List.filter_cons, hp]
        have hfu : (s :: rest).filter (fun s =>
              decide (s ∉ PIXEL_DIMENSION_SCOPES ∧ s ∈ UNITLESS_NUMERIC_SCOPES))
            = rest.filter (fun s =>
              decide (s ∉ PIXEL_DIMENSION_SCOPES ∧ s ∈ UNITLESS_NUMERIC_SCOPES)) := by
          simp [List.filter_cons, hp, hu]
        rw [hfp, hfu]

theorem categorize_spec (scopes : List String) (hnd : scopes.Nodup) :
    categorizeScopes scopes
      = ((scopes.filter (fun s => decide (s ∈ PIXEL_DIMENSION_SCOPES))).length,
         (scopes.filter (fun s => decide (s ∈ UNITLESS_NUMERIC_SCOPES))).length,
         scopes.filter (fun s => decide (s ∈ PIXEL_DIMENSION_SCOPES)),
         scopes.filter (fun s => decide (s ∈ UNITLESS_NUMERIC_SCOPES))) := by
  have hcong : scopes.filter (fun s =>
        decide (s ∉ PIXEL_DIMENSION_SCOPES ∧ s ∈ UNITLESS_NUMERIC_SCOPES))
      = scopes.filter (fun s => decide (s ∈ UNITLESS_NUMERIC_SCOPES)) := by
    apply List.filter_congr
    intro s _
    by_cases hu : s ∈ UNITLESS_NUMERIC_SCOPES
    · simp [hu, pixel_unitless_disjoint s hu]
    · simp [hu]
  unfold categorizeScopes
  rw [categorize_fold scopes 0 0 [] [] hnd (by simp) (by simp), hcong]
  simp

/-- C7 (confirmed).  For a Number-kind (`FLOAT`) variable whose scopes —
a set of tags, hence duplicate-free — contain at least one
pixel-dimension scope and no unitless-numeric scope, the classifier
returns the specific type when exactly one pixel-dimension scope matches
and that scope is one of the five recognised ones, and `dimension`
otherwise; when both categories are present it returns `number`. -/
theorem claim_C7 (idv name : String) (vbm : Option (List (String × FVal)))
    (scopes : List String) (hnd : scopes.Nodup) :
    ((scopes.filter (fun s => decide (s ∈ PIXEL_DIMENSION_SCOPES))) ≠ [] →
      (scopes.filter (fun s => decide (s ∈ UNITLESS_NUMERIC_SCOPES))) = [] →
      resolveDTCGType ⟨idv, name, "FLOAT", scopes, vbm⟩
        = (match scopes.filter (fun s => decide (s ∈ PIXEL_DIMENSION_SCOPES)) with
           | [s] => (SPECIFIC_PIXEL_DIMENSION_TYPE_MAP.lookup s).getD "dimension"
           | _ => "dimension"))
    ∧ ((scopes.filter (fun s => decide (s ∈ PIXEL_DIMENSION_SCOPES))) ≠ [] →
      (scopes.filter (fun s => decide (s ∈ UNITLESS_NUMERIC_SCOPES))) ≠ [] →
      resolveDTCGType ⟨idv, name, "FLOAT", scopes, vbm⟩ = "number") := by
  have hrt : resolveDTCGType ⟨idv, name, "FLOAT", scopes, vbm⟩
      = resolveFloatBranch name scopes (categorizeScopes scopes) := rfl
  have hcat := categorize_spec scopes hnd
  constructor
  · intro hpne hueq
    rw [hrt, hcat]
    unfold resolveFloatBranch
    rcases hp : scopes.filter (fun s => decide (s ∈ PIXEL_DIMENSION_SCOPES))
      with _ | ⟨s1, _ | ⟨s2, t⟩⟩
    · exact absurd hp hpne
    · simp only [hueq, List.length_singleton, List.length_nil]
      rw [if_pos trivial]
      simp only [List.head?_cons]
      cases h : SPECIFIC_PIXEL_DIMENSION_TYPE_MAP.lookup s1 <;> rfl
    · simp only [hueq, List.length_cons, List.length_nil]
      rw [if_pos ⟨by omega, trivial⟩, if_neg (by omega)]
  · intro hpne hune
    have hlp : 0 < (scopes.filter (fun s => decide (s ∈ PIXEL_DIMENSION_SCOPES))).length :=
      List.length_pos.mpr hpne
    have hlu : 0 < (scopes.filter (fun s => decide (s ∈ UNITLESS_NUMERIC_SCOPES))).length :=
      List.length_pos.mpr hune
    rw [hrt, hcat]
    unfold resolveFloatBranch
    simp only [gt_iff_lt]
    rw [if_neg (by omega), if_neg (by omega), if_pos ⟨hlp, hlu⟩]

/-- C7 witness. -/
theorem claim_C7_witness :
    resolveDTCGType ⟨"v1", "n", "FLOAT", ["FONT_SIZE"], none⟩ = "fontSize"
      ∧ resolveDTCGType ⟨"v2", "n", "FLOAT", ["FONT_SIZE", "FONT_WEIGHT"], none⟩ = "number" := by
  constructor
  · have h := (claim_C7 "v1" "n" none ["FONT_SIZE"] (by decide)).1 (by decide) (by decide)
    rw [h]
    rfl
  · have h := (claim_C7 "v2" "n" none ["FONT_SIZE", "FONT_WEIGHT"] (by decide)).2
      (by decide) (by decide)
    rw [h]

/-! ## Spec-side decimal renderer

`specPrintScaled` follows the specification's wording — "round to 3
decimal places, then strip trailing zeros" — by printing all three
fractional digits and stripping the trailing `'0'` characters.  It is
compared against the code-side printer `printScaled` (which the converter
uses) in the number claims. -/

def stripTrailingZeros (l : List Char) : List Char :=
  (l.reverse.dropWhile (fun c => c = '0')).reverse

def pad3Digits (r : ℕ) : List Char :=
  [Nat.digitChar (r / 100), Nat.digitChar (r / 10 % 10), Nat.digitChar (r % 10)]

/-- Spec-side printing of `m/1000`: sign, integer part, and the three
fractional digits with trailing zeros stripped (no dot when everything
was stripped). -/
def specPrintScaled (m : ℤ) : String :=
  ⟨(if m < 0 then ['-'] else [])
    ++ decDigits (m.natAbs / 1000)
    ++ (if stripTrailingZeros (pad3Digits (m.natAbs % 1000)) = [] then []
        else '.' :: stripTrailingZeros (pad3Digits (m.natAbs % 1000)))⟩

theorem digitChar_eq_zero {d : ℕ} (h : d < 10) : Nat.digitChar d = '0' ↔ d = 0 := by
  interval_cases d <;> simp <;> decide

theorem stripTrailingZeros_three (c1 c2 c3 : Char) :
    stripTrailingZeros [c1, c2, c3]
      = if c3 = '0' then (if c2 = '0' then (if c1 = '0' then [] else [c1]) else [c1, c2])
        else [c1, c2, c3] := by
  unfold stripTrailingZeros
  by_cases h3 : c3 = '0' <;> by_cases h2 : c2 = '0' <;> by_cases h1 : c1 = '0' <;>
    simp [List.dropWhile, h1, h2, h3]

theorem strip_pad3_eq_frac {r : ℕ} (h : r < 1000) :
    stripTrailingZeros (pad3Digits r) = if r = 0 then [] else fracDigits3 r := by
  have d1 : r / 100 < 10 := by omega
  have d2 : r / 10 % 10 < 10 := Nat.mod_lt _ (by norm_num)
  have d3 : r % 10 < 10 := Nat.mod_lt _ (by norm_num)
  unfold pad3Digits
  rw [stripTrailingZeros_three]
  by_cases hz : r = 0
  · subst hz
    simp [digitChar_eq_zero, fracDigits3]
  · rw [if_neg hz]
    unfold fracDigits3
    by_cases hc1 : r % 100 = 0
    · have h10 : r % 10 = 0 := by omega
      have h110 : r / 10 % 10 = 0 := by omega
      have h100 : r / 100 ≠ 0 := by omega
      rw [if_pos hc1, if_pos ((digitChar_eq_zero d3).mpr h10),
        if_pos ((digitChar_eq_zero d2).mpr h110),
        if_neg (fun he => h100 ((digitChar_eq_zero d1).mp he))]
    · rw [if_neg hc1]
      by_cases hc2 : r % 10 = 0
      · have h110 : r / 10 % 10 ≠ 0 := by omega
        rw [if_pos hc2, if_pos ((digitChar_eq_zero d3).mpr hc2),
          if_neg (fun he => h110 ((digitChar_eq_zero d2).mp he))]
      · rw [if_neg hc2, if_neg (fun he => hc2 ((digitChar_eq_zero d3).mp he))]

theorem fracDigits3_ne_nil (r : ℕ) : fracDigits3 r ≠ [] := by
  unfold fracDigits3
  split
  · simp
  split <;> simp

/-- The code's printer (plain JS number printing) agrees with the
spec-side "round then strip trailing zeros" renderer. -/
theorem printScaled_eq_spec (m : ℤ) : printScaled m = specPrintScaled m := by
  have hmod : m.natAbs % 1000 < 1000 := Nat.mod_lt _ (by norm_num)
  unfold printScaled printScaledChars specPrintScaled
  rw [strip_pad3_eq_frac hmod]
  by_cases hz : m.natAbs % 1000 = 0
  · simp [hz]
  · simp [hz, fracDigits3_ne_nil]

/-! ## Number conversion lemmas -/

theorem roundTo3_mul1000 (q : ℚ) :
    roundToMaxThreeDecimals q * 1000 = (jsRound (q * 1000) : ℚ) := by
  unfold roundToMaxThreeDecimals
  field_simp

theorem roundTo3_div1000 (M : ℤ) :
    roundToMaxThreeDecimals ((M : ℚ) / 1000) = (M : ℚ) / 1000 := by
  unfold roundToMaxThreeDecimals
  rw [show ((M : ℚ) / 1000) * 1000 = (M : ℚ) by field_simp, jsRound_intCast]

theorem jsRound_roundTo3_mul (q : ℚ) :
    jsRound (roundToMaxThreeDecimals q * 1000) = jsRound (q * 1000) := by
  rw [roundTo3_mul1000, jsRound_intCast]

/-- Reduction of the converter on the `FLOAT`/`NUMBER` branch for
non-null, non-alias values. -/
theorem convert_float_eq (u : Bool) (β : ℚ) (v : FVal) (figT dtT : String)
    (hf : figT = "FLOAT" ∨ figT = "NUMBER") (h1 : v ≠ fnull) (h2 : ∀ s, v ≠ falias s) :
    convertFigmaValueToDTCG u β v figT dtT
      = (if dtT ∈ TYPES_REQUIRING_PX then
           if u then
             fstr (convertPxToRem
               (match parseFloatVal v with
                | none => 0
                | some q => roundToMaxThreeDecimals q) β)
           else
             fstr (jsNumToString
               (match parseFloatVal v with
                | none => 0
                | some q => roundToMaxThreeDecimals q) ++ "px")
         else
           fnum (match parseFloatVal v with
                 | none => 0
                 | some q => roundToMaxThreeDecimals q)) := by
  rcases hf with hf | hf <;> subst hf <;> cases v <;>
    first
      | exact absurd rfl h1
      | exact absurd rfl (h2 _)
      | simp [convertFigmaValueToDTCG]

/-- C6 (amended).  For a Number-kind literal whose classified type needs
a unit, the converter rounds to three decimals, strips trailing zeros
(the spec-side renderer `specPrintScaled`), and appends `px`; under
rem-mode it emits the **already-rounded** value divided by the base font
size, rounded again by the same rule, with a `rem` suffix.  (The claim's
reading — a single rounding of `value / base` — fails; see the
counterexample.) -/
theorem claim_C6 (q β : ℚ) (dtT : String) (hdt : dtT ∈ TYPES_REQUIRING_PX) :
    convertFigmaValueToDTCG false β (fnum q) "FLOAT" dtT
        = fstr (specPrintScaled (jsRound (q * 1000)) ++ "px")
    ∧ (β ≠ 0 →
      convertFigmaValueToDTCG true β (fnum q) "FLOAT" dtT
        = fstr (specPrintScaled (jsRound (roundToMaxThreeDecimals q / β * 1000)) ++ "rem")) := by
  constructor
  · rw [convert_float_eq false β (fnum q) "FLOAT" dtT (Or.inl rfl)
      (fun h => FVal.noConfusion h) (fun s h => FVal.noConfusion h), if_pos hdt]
    show fstr (jsNumToString (roundToMaxThreeDecimals q) ++ "px") = _
    unfold jsNumToString
    rw [jsRound_roundTo3_mul, printScaled_eq_spec]
  · intro hβ
    rw [convert_float_eq true β (fnum q) "FLOAT" dtT (Or.inl rfl)
      (fun h => FVal.noConfusion h) (fun s h => FVal.noConfusion h), if_pos hdt]
    show fstr (convertPxToRem (roundToMaxThreeDecimals q) β) = _
    unfold convertPxToRem
    rw [if_neg hβ]
    unfold jsNumToString
    rw [jsRound_roundTo3_mul, printScaled_eq_spec]

/-- C6 counterexample: raw value `0.0075` (= 3/400) under rem-mode with
base 16.  The code rounds twice — first the raw value to `0.008`, then
`0.008/16 = 0.0005` up to `0.001` — and emits `"0.001rem"`, while the
claim's single rounding of `value / base = 0.00046875` gives `"0rem"`. -/
theorem claim_C6_counterexample :
    convertFigmaValueToDTCG true 16 (fnum (3/400)) "FLOAT" "dimension" = fstr "0.001rem"
    ∧ specPrintScaled (jsRound ((3/400 : ℚ) / 16 * 1000)) ++ "rem" = "0rem"
    ∧ ("0.001rem" : String) ≠ "0rem" := by
  refine ⟨?_, ?_, by decide⟩
  · rw [convert_float_eq true 16 (fnum (3/400)) "FLOAT" "dimension" (Or.inl rfl)
      (fun h => FVal.noConfusion h) (fun s h => FVal.noConfusion h), if_pos (by decide)]
    show fstr (convertPxToRem (roundToMaxThreeDecimals (3/400)) 16) = _
    have h1 : jsRound ((3/400 : ℚ) * 1000) = 8 := jsRound_eq_of (by norm_num) (by norm_num)
    have h2 : roundToMaxThreeDecimals (3/400 : ℚ) = 8/1000 := by
      unfold roundToMaxThreeDecimals
      rw [h1]
      norm_num
    rw [h2]
    unfold convertPxToRem
    rw [if_neg (by norm_num)]
    have h3 : jsRound ((8/1000 : ℚ) / 16 * 1000) = 1 := jsRound_eq_of (by norm_num) (by norm_num)
    have h4 : roundToMaxThreeDecimals ((8/1000 : ℚ) / 16) = 1/1000 := by
      unfold roundToMaxThreeDecimals
      rw [h3]
      norm_num
    rw [h4]
    unfold jsNumToString
    have h5 : jsRound ((1/1000 : ℚ) * 1000) = 1 := jsRound_eq_of (by norm_num) (by norm_num)
    rw [h5]
    decide
  · have h6 : jsRound ((3/400 : ℚ) / 16 * 1000) = 0 := jsRound_eq_of (by norm_num) (by norm_num)
    rw [h6]
    decide

/-- C6 witness: raw value 16 scoped to a font-size type yields `"16px"`,
or `"1rem"` under rem-mode with base 16. -/
theorem claim_C6_witness :
    convertFigmaValueToDTCG false 16 (fnum 16) "FLOAT" "fontSize" = fstr "16px"
    ∧ convertFigmaValueToDTCG true 16 (fnum 16) "FLOAT" "fontSize" = fstr "1rem" := by
  have h := claim_C6 16 16 "fontSize" (by decide)
  have h16 : jsRound ((16 : ℚ) * 1000) = 16000 := jsRound_eq_of (by norm_num) (by norm_num)
  constructor
  · rw [h.1, h16]
    decide
  · rw [h.2 (by norm_num)]
    have hr3 : roundToMaxThreeDecimals (16 : ℚ) = 16 := by
      unfold roundToMaxThreeDecimals
      rw [h16]
      norm_num
    rw [hr3]
    have h1000 : jsRound ((16 : ℚ) / 16 * 1000) = 1000 := jsRound_eq_of (by norm_num) (by norm_num)
    rw [h1000]
    decide

/-! ## Idempotence of value conversion (rem-mode disabled) -/

theorem jsNumToString_div1000 (M : ℤ) : jsNumToString ((M : ℚ) / 1000) = printScaled M := by
  unfold jsNumToString
  rw [show ((M : ℚ) / 1000) * 1000 = (M : ℚ) by field_simp, jsRound_intCast]

theorem sfxOk_rem : sfxOk ['r', 'e', 'm'] := by
  intro c r h
  cases h
  decide

/-- With rem-mode disabled, converting a converted literal value changes
nothing: the px-suffixed strings re-parse to their exact value, plain
numbers are already rounded, and color/boolean/string outputs pass
through unchanged. -/
theorem convert_idem_aux (β : ℚ) (figT dtT : String) (v : FVal)
    (hv : ∀ s, v ≠ falias s) :
    convertFigmaValueToDTCG false β (convertFigmaValueToDTCG false β v figT dtT) figT dtT
      = convertFigmaValueToDTCG false β v figT dtT := by
  by_cases hC : figT = "COLOR"
  · subst hC
    have hstr : ∀ s : String,
        convertFigmaValueToDTCG false β (fstr s) "COLOR" dtT = fstr s := by
      intro s
      simp [convertFigmaValueToDTCG]
    cases v with
    | fnull => simp [convertFigmaValueToDTCG]
    | falias s => exact absurd rfl (hv s)
    | fcolor r g b a? =>
      rcases a? with _ | a
      · rw [show convertFigmaValueToDTCG false β (fcolor r g b none) "COLOR" dtT
            = fstr (hexColorString r g b) from by simp [convertFigmaValueToDTCG]]
        exact hstr _
      · by_cases ha : a = 1
        · subst ha
          rw [show convertFigmaValueToDTCG false β (fcolor r g b (some 1)) "COLOR" dtT
              = fstr (hexColorString r g b) from by rw [convert_color_branch]; simp]
          exact hstr _
        · rw [convert_color_branch, if_pos ha]
          exact hstr _
    | fnum q =>
      have h : convertFigmaValueToDTCG false β (fnum q) "COLOR" dtT = fnum q := by
        simp [convertFigmaValueToDTCG]
      rw [h]
      exact h
    | fstr s => rw [hstr s]; exact hstr s
    | fbool b =>
      have h : convertFigmaValueToDTCG false β (fbool b) "COLOR" dtT = fbool b := by
        simp [convertFigmaValueToDTCG]
      rw [h]
      exact h
  by_cases hB : figT = "BOOLEAN"
  · subst hB
    have hgen : ∀ w : FVal, w ≠ fnull → (∀ s, w ≠ falias s) →
        convertFigmaValueToDTCG false β w "BOOLEAN" dtT = fbool (jsTruthy w) := by
      intro w h1 h2
      cases w with
      | fnull => exact absurd rfl h1
      | falias s => exact absurd rfl (h2 s)
      | fnum q => simp [convertFigmaValueToDTCG]
      | fstr s => simp [convertFigmaValueToDTCG]
      | fbool b => simp [convertFigmaValueToDTCG]
      | fcolor r g b a => simp [convertFigmaValueToDTCG]
    cases v with
    | fnull => simp [convertFigmaValueToDTCG]
    | falias s => exact absurd rfl (hv s)
    | fnum q =>
      rw [hgen (fnum q) (fun h => FVal.noConfusion h) (fun s h => FVal.noConfusion h),
        hgen (fbool (jsTruthy (fnum q))) (fun h => FVal.noConfusion h)
          (fun s h => FVal.noConfusion h)]
      rfl
    | fstr s =>
      rw [hgen (fstr s) (fun h => FVal.noConfusion h) (fun s h => FVal.noConfusion h),
        hgen (fbool (jsTruthy (fstr s))) (fun h => FVal.noConfusion h)
          (fun s h => FVal.noConfusion h)]
      rfl
    | fbool b =>
      rw [hgen (fbool b) (fun h => FVal.noConfusion h) (fun s h => FVal.noConfusion h),
        hgen (fbool (jsTruthy (fbool b))) (fun h => FVal.noConfusion h)
          (fun s h => FVal.noConfusion h)]
      rfl
    | fcolor r g b a =>
      rw [hgen (fcolor r g b a) (fun h => FVal.noConfusion h) (fun s h => FVal.noConfusion h),
        hgen (fbool (jsTruthy (fcolor r g b a))) (fun h => FVal.noConfusion h)
          (fun s h => FVal.noConfusion h)]
      rfl
  by_cases hS : figT = "STRING"
  · subst hS
    have hgen : ∀ w : FVal, w ≠ fnull → (∀ s, w ≠ falias s) →
        convertFigmaValueToDTCG false β w "STRING" dtT = fstr (jsToString w) := by
      intro w h1 h2
      cases w with
      | fnull => exact absurd rfl h1
      | falias s => exact absurd rfl (h2 s)
      | fnum q => simp [convertFigmaValueToDTCG]
      | fstr s => simp [convertFigmaValueToDTCG]
      | fbool b => simp [convertFigmaValueToDTCG]
      | fcolor r g b a => simp [convertFigmaValueToDTCG]
    cases v with
    | fnull => simp [convertFigmaValueToDTCG]
    | falias s => exact absurd rfl (hv s)
    | fnum q =>
      rw [hgen (fnum q) (fun h => FVal.noConfusion h) (fun s h => FVal.noConfusion h),
        hgen (fstr (jsToString (fnum q))) (fun h => FVal.noConfusion h)
          (fun s h => FVal.noConfusion h)]
      rfl
    | fstr s =>
      rw [hgen (fstr s) (fun h => FVal.noConfusion h) (fun s h => FVal.noConfusion h),
        hgen (fstr (jsToString (fstr s))) (fun h => FVal.noConfusion h)
          (fun s h => FVal.noConfusion h)]
      rfl
    | fbool b =>
      rw [hgen (fbool b) (fun h => FVal.noConfusion h) (fun s h => FVal.noConfusion h),
        hgen (fstr (jsToString (fbool b))) (fun h => FVal.noConfusion h)
          (fun s h => FVal.noConfusion h)]
      rfl
    | fcolor r g b a =>
      rw [hgen (fcolor r g b a) (fun h => FVal.noConfusion h) (fun s h => FVal.noConfusion h),
        hgen (fstr (jsToString (fcolor r g b a))) (fun h => FVal.noConfusion h)
          (fun s h => FVal.noConfusion h)]
      rfl
  by_cases hF : figT = "FLOAT" ∨ figT = "NUMBER"
  · by_cases hnull : v = fnull
    · subst hnull
      rcases hF with h | h <;> subst h <;> simp [convertFigmaValueToDTCG]
    · rw [convert_float_eq false β v figT dtT hF hnull hv]
      obtain ⟨M, hM⟩ : ∃ M : ℤ,
          (match parseFloatVal v with
           | none => (0 : ℚ)
           | some q => roundToMaxThreeDecimals q) = (M : ℚ) / 1000 := by
        cases parseFloatVal v with
        | none => exact ⟨0, by norm_num⟩
        | some q => exact ⟨jsRound (q * 1000), rfl⟩
      rw [hM]
      by_cases hdt : dtT ∈ TYPES_REQUIRING_PX
      · rw [if_pos hdt]
        show convertFigmaValueToDTCG false β
            (fstr (jsNumToString ((M : ℚ) / 1000) ++ "px")) figT dtT = _
        rw [jsNumToString_div1000,
          convert_float_eq false β (fstr (printScaled M ++ "px")) figT dtT hF
            (fun h => FVal.noConfusion h) (fun s h => FVal.noConfusion h),
          if_pos hdt]
        show fstr (jsNumToString
            (match parseFloatStr (printScaled M ++ "px") with
             | none => (0 : ℚ)
             | some q => roundToMaxThreeDecimals q) ++ "px") = _
        rw [parseFloatStr_printScaled_px M]
        show fstr (jsNumToString (roundToMaxThreeDecimals ((M : ℚ) / 1000)) ++ "px") = _
        rw [roundTo3_div1000, jsNumToString_div1000]
        rfl
      · rw [if_neg hdt]
        show convertFigmaValueToDTCG false β (fnum ((M : ℚ) / 1000)) figT dtT = _
        rw [convert_float_eq false β (fnum ((M : ℚ) / 1000)) figT dtT hF
          (fun h => FVal.noConfusion h) (fun s h => FVal.noConfusion h), if_neg hdt]
        show fnum (roundToMaxThreeDecimals ((M : ℚ) / 1000)) = _
        rw [roundTo3_div1000]
  · push_neg at hF
    have hgen : ∀ w : FVal, (∀ s, w ≠ falias s) →
        convertFigmaValueToDTCG false β w figT dtT = w := by
      intro w h2
      cases w with
      | fnull => simp [convertFigmaValueToDTCG]
      | falias s => exact absurd rfl (h2 s)
      | fnum q => simp [convertFigmaValueToDTCG, hC, hB, hS, hF.1, hF.2]
      | fstr s => simp [convertFigmaValueToDTCG, hC, hB, hS, hF.1, hF.2]
      | fbool b => simp [convertFigmaValueToDTCG, hC, hB, hS, hF.1, hF.2]
      | fcolor r g b a => simp [convertFigmaValueToDTCG, hC, hB, hS, hF.1, hF.2]
    rw [hgen v hv]
    exact hgen v hv

/-- C5 (amended).  Value conversion is idempotent on every literal
(non-alias) value **when rem-mode is disabled**; `round(round(x,3),3) =
round(x,3)` for every number `x`, and trailing zeros are stripped
(`4.500` — i.e. `4500/1000` — prints as `"4.5"`).  With rem-mode enabled
idempotence fails, because a unit-typed number is divided by the base
font size again on every conversion pass (see the counterexample). -/
theorem claim_C5 (figT dtT : String) (β : ℚ) (v : FVal) (hv : ∀ s, v ≠ falias s) :
    convertFigmaValueToDTCG false β (convertFigmaValueToDTCG false β v figT dtT) figT dtT
      = convertFigmaValueToDTCG false β v figT dtT
    ∧ (∀ x : ℚ, roundToMaxThreeDecimals (roundToMaxThreeDecimals x) = roundToMaxThreeDecimals x)
    ∧ printScaled 4500 = "4.5" := by
  exact ⟨convert_idem_aux β figT dtT v hv,
    roundToMaxThreeDecimals_idem, by decide⟩

/-- C5 counterexample: with rem-mode enabled (base 16), converting the
literal 16 yields `"1rem"`, but converting that output again yields
`"0.063rem"` — conversion is not idempotent as the claim states it for
every configuration of the converter. -/
theorem claim_C5_counterexample :
    convertFigmaValueToDTCG true 16
        (convertFigmaValueToDTCG true 16 (fnum 16) "FLOAT" "dimension") "FLOAT" "dimension"
      = fstr "0.063rem"
    ∧ convertFigmaValueToDTCG true 16 (fnum 16) "FLOAT" "dimension" = fstr "1rem"
    ∧ fstr "0.063rem" ≠ fstr "1rem" := by
  have h16 : jsRound ((16 : ℚ) * 1000) = 16000 := jsRound_eq_of (by norm_num) (by norm_num)
  have hr16 : roundToMaxThreeDecimals (16 : ℚ) = 16 := by
    unfold roundToMaxThreeDecimals
    rw [h16]
    norm_num
  have hw : convertFigmaValueToDTCG true 16 (fnum 16) "FLOAT" "dimension" = fstr "1rem" := by
    rw [convert_float_eq true 16 (fnum 16) "FLOAT" "dimension" (Or.inl rfl)
      (fun h => FVal.noConfusion h) (fun s h => FVal.noConfusion h), if_pos (by decide)]
    show fstr (convertPxToRem (roundToMaxThreeDecimals 16) 16) = _
    rw [hr16]
    unfold convertPxToRem
    rw [if_neg (by norm_num)]
    have h1 : jsRound ((16 : ℚ) / 16 * 1000) = 1000 := jsRound_eq_of (by norm_num) (by norm_num)
    have h2 : roundToMaxThreeDecimals ((16 : ℚ) / 16) = 1 := by
      unfold roundToMaxThreeDecimals
      rw [h1]
      norm_num
    rw [h2]
    unfold jsNumToString
    rw [show jsRound ((1 : ℚ) * 1000) = 1000 from jsRound_eq_of (by norm_num) (by norm_num)]
    decide
  have hp : parseFloatStr "1rem" = some 1 := by
    have hd : ("1rem" : String).data = printScaledChars 1000 ++ ['r', 'e', 'm'] := by decide
    unfold parseFloatStr
    rw [hd, parseFloatChars_printScaled 1000 sfxOk_rem]
    norm_num
  have h2nd : convertFigmaValueToDTCG true 16 (fstr "1rem") "FLOAT" "dimension"
      = fstr "0.063rem" := by
    rw [convert_float_eq true 16 (fstr "1rem") "FLOAT" "dimension" (Or.inl rfl)
      (fun h => FVal.noConfusion h) (fun s h => FVal.noConfusion h), if_pos (by decide)]
    show fstr (convertPxToRem
      (match parseFloatStr "1rem" with
       | none => (0 : ℚ)
       | some q => roundToMaxThreeDecimals q) 16) = _
    rw [hp]
    show fstr (convertPxToRem (roundToMaxThreeDecimals 1) 16) = _
    have hr1 : roundToMaxThreeDecimals (1 : ℚ) = 1 := by
      unfold roundToMaxThreeDecimals
      rw [show jsRound ((1 : ℚ) * 1000) = 1000 from jsRound_eq_of (by norm_num) (by norm_num)]
      norm_num
    rw [hr1]
    unfold convertPxToRem
    rw [if_neg (by norm_num)]
    have h3 : jsRound ((1 : ℚ) / 16 * 1000) = 63 := jsRound_eq_of (by norm_num) (by norm_num)
    have h4 : roundToMaxThreeDecimals ((1 : ℚ) / 16) = 63 / 1000 := by
      unfold roundToMaxThreeDecimals
      rw [h3]
      norm_num
    rw [h4]
    unfold jsNumToString
    rw [show jsRound ((63 : ℚ) / 1000 * 1000) = 63 from jsRound_eq_of (by norm_num) (by norm_num)]
    decide
  rw [hw]
  exact ⟨h2nd, rfl, by decide⟩

/-- C5 witness. -/
theorem claim_C5_witness :
    convertFigmaValueToDTCG false 16
        (convertFigmaValueToDTCG false 16 (fnum (9/2)) "FLOAT" "number") "FLOAT" "number"
      = convertFigmaValueToDTCG false 16 (fnum (9/2)) "FLOAT" "number"
    ∧ printScaled 4500 = "4.5" := by
  have h := claim_C5 "FLOAT" "number" 16 (fnum (9/2)) (fun s h => FVal.noConfusion h)
  exact ⟨h.1, h.2.2⟩

/-! ## Name sanitisation (code.js lines 2246-2254)

`sanitizeForDTCG(name)`: falsy names become `"unnamed"`; otherwise
whitespace runs collapse to single hyphens (`/\s+/g → '-'`), characters
outside `[a-zA-Z0-9-_]` are removed, and the result is lowercased. -/

/-- Collapse each whitespace run to a single `'-'` (`replace(/\s+/g, '-')`).
`prevWs` records whether the previous character was whitespace. -/
def collapseWsAux (prevWs : Bool) : List Char → List Char
  | [] => []
  | c :: rest =>
    if isWsCh c then (if prevWs then [] else ['-']) ++ collapseWsAux true rest
    else c :: collapseWsAux false rest

def validKeyCh (c : Char) : Bool :=
  c.isLower || c.isUpper || c.isDigit || c = '-' || c = '_'

def sanitizeForDTCG (name : String) : String :=
  if name = "" then "unnamed"
  else ⟨((collapseWsAux false name.data).filter validKeyCh).map Char.toLower⟩

example : sanitizeForDTCG "Spacing" = "spacing" := by decide
example : sanitizeForDTCG "Design  System" = "design-system" := by decide
example : sanitizeForDTCG "A!B" = "ab" := by decide

/-! ## Canonical collection keys (code.js lines 1810-1831) -/

/-- The record stored in `usedCollectionNames`. -/
structure KeyEntry where
  libraryName : String
  finalKey : String
  deriving DecidableEq, Repr

/-- JS `Map.set`: replace in place if the key exists, else append. -/
def setAssoc {α β : Type} [BEq α] : List (α × β) → α → β → List (α × β)
  | [], k, v => [(k, v)]
  | (k0, v0) :: rest, k, v =>
    if k0 == k then (k, v) :: rest else (k0, v0) :: setAssoc rest k v

/-- `getFinalCollectionKey(collectionName, libraryName)` from code.js
lines 1810-1831, with the closed-over `usedCollectionNames` map passed
and returned explicitly. -/
def getFinalCollectionKey (used : List (String × KeyEntry))
    (collectionName libraryName : String) : String × List (String × KeyEntry) :=
  let sCollectionName := sanitizeForDTCG collectionName
  let sLibraryName := sanitizeForDTCG (if libraryName = "" then "unnamed-library" else libraryName)
  match used.lookup sCollectionName with
  | none =>
    (sCollectionName, setAssoc used sCollectionName ⟨sLibraryName, sCollectionName⟩)
  | some existing =>
    if existing.libraryName = sLibraryName then (existing.finalKey, used)
    else
      (sCollectionName ++ "-" ++ sLibraryName,
       setAssoc used (sCollectionName ++ "-" ++ sLibraryName)
         ⟨sLibraryName, sCollectionName ++ "-" ++ sLibraryName⟩)

/-- C8 (amended).  The first collection to claim a sanitized name
receives `sanitize(name)`; a later collection with the same sanitized
name whose origin **sanitizes differently** receives
`sanitize(name) + "-" + sanitize(origin)`; when the two origins sanitize
identically, the existing key is returned unsuffixed (see the
counterexample).  Local "Spacing" and library "DesignSystem"'s "Spacing"
receive `"spacing"` and `"spacing-designsystem"`. -/
theorem claim_C8 (used : List (String × KeyEntry)) (name origin : String) :
    (used.lookup (sanitizeForDTCG name) = none →
      (getFinalCollectionKey used name origin).1 = sanitizeForDTCG name)
    ∧ (∀ e, used.lookup (sanitizeForDTCG name) = some e →
        e.libraryName ≠ sanitizeForDTCG (if origin = "" then "unnamed-library" else origin) →
        (getFinalCollectionKey used name origin).1
          = sanitizeForDTCG name ++ "-"
            ++ sanitizeForDTCG (if origin = "" then "unnamed-library" else origin))
    ∧ ((getFinalCollectionKey [] "Spacing" "MyDoc").1 = "spacing"
        ∧ (getFinalCollectionKey (getFinalCollectionKey [] "Spacing" "MyDoc").2
            "Spacing" "DesignSystem").1 = "spacing-designsystem") := by
  refine ⟨?_, ?_, by decide⟩
  · intro hnone
    simp only [getFinalCollectionKey]
    rw [hnone]
  · intro e hsome hneq
    simp only [getFinalCollectionKey]
    rw [hsome]
    simp only [if_neg hneq]

/-- C8 counterexample: the origins `"A!B"` and `"AB"` are different, but
sanitize to the same string, so the second collection named "Spacing"
receives the unsuffixed key `"spacing"` instead of the suffixed key the
claim requires for a different origin. -/
theorem claim_C8_counterexample :
    ("A!B" : String) ≠ "AB"
    ∧ (getFinalCollectionKey (getFinalCollectionKey [] "Spacing" "A!B").2 "Spacing" "AB").1
        = "spacing"
    ∧ (getFinalCollectionKey (getFinalCollectionKey [] "Spacing" "A!B").2 "Spacing" "AB").1
        ≠ "spacing" ++ "-" ++ sanitizeForDTCG "AB" := by
  refine ⟨by decide, by decide, by decide⟩

/-- C8 witness. -/
theorem claim_C8_witness :
    (getFinalCollectionKey [] "Spacing" "MyDoc").1 = sanitizeForDTCG "Spacing"
    ∧ (getFinalCollectionKey (getFinalCollectionKey [] "Spacing" "MyDoc").2
        "Spacing" "DesignSystem").1 = "spacing-designsystem" := by
  refine ⟨(claim_C8 [] "Spacing" "MyDoc").1 (by decide), (claim_C8 [] "x" "y").2.2.2⟩

/-! ## Alias resolution (code.js lines 1918-1947) -/

/-- A path-index entry: canonical collection key plus sanitized name
segments. -/
structure PathInfo where
  collectionKey : String
  path : List String
  deriving DecidableEq, Repr

/-- `resolveVariableAlias(aliasId)` from code.js lines 1918-1947.  The
path index and the unresolved set are passed and returned explicitly;
`ext` models the one-time external lookup
(`figma.variables.getVariableByIdAsync`), returning the resolved
variable's id, or `none` when the call fails or returns null. -/
def resolveVariableAlias (pathMap : List (String × PathInfo)) (ext : String → Option String)
    (unresolved : List String) (aliasId : String) : String × List String :=
  let info : Option PathInfo :=
    match pathMap.lookup aliasId with
    | some i => some i
    | none =>
      match ext aliasId with
      | some rid => if rid ≠ "" then pathMap.lookup rid else none
      | none => none
  match info with
  | none =>
    ("\x7b" ++ aliasId ++ "\x7d",
     if pathMap.length > 0 then addUniq unresolved aliasId else unresolved)
  | some i =>
    ("\x7b" ++ String.intercalate "." (i.collectionKey :: i.path) ++ "\x7d", unresolved)

/-- C2 (amended).  For an alias whose target id is absent from the path
index and still absent after the external lookup, **provided the path
index is non-empty**, the resolver emits the literal wrapper `{targetId}`
and adds the target id to the unresolved set, so a fresh unresolved alias
increases the unresolved count by exactly 1.  (With an empty path index
the id is not recorded; see the counterexample.) -/
theorem claim_C2 (pathMap : List (String × PathInfo)) (ext : String → Option String)
    (unresolved : List String) (aliasId : String)
    (hmap : pathMap ≠ [])
    (h1 : pathMap.lookup aliasId = none)
    (h2 : ∀ rid, ext aliasId = some rid → rid = "" ∨ pathMap.lookup rid = none) :
    (resolveVariableAlias pathMap ext unresolved aliasId).1 = "\x7b" ++ aliasId ++ "\x7d"
    ∧ aliasId ∈ (resolveVariableAlias pathMap ext unresolved aliasId).2
    ∧ (aliasId ∉ unresolved →
        (resolveVariableAlias pathMap ext unresolved aliasId).2.length
          = unresolved.length + 1) := by
  have hinfo : (match pathMap.lookup aliasId with
      | some i => some i
      | none =>
        match ext aliasId with
        | some rid => if rid ≠ "" then pathMap.lookup rid else none
        | none => none) = (none : Option PathInfo) := by
    rw [h1]
    cases hext : ext aliasId with
    | none => rfl
    | some rid =>
      rcases h2 rid hext with hr | hr
      · subst hr
        simp
      · simp [hr]
  have hlen : pathMap.length > 0 := List.length_pos.mpr hmap
  unfold resolveVariableAlias
  rw [hinfo]
  simp only [if_pos hlen]
  refine ⟨by trivial, ?_, ?_⟩
  · unfold addUniq
    by_cases hmem : aliasId ∈ unresolved
    · rw [if_pos hmem]
      exact hmem
    · rw [if_neg hmem]
      simp
  · intro hmem
    unfold addUniq
    rw [if_neg hmem]
    simp

def extNone : String → Option String := fun _ => none

/-- C2 counterexample: with an **empty** path index, an unknown alias
target is emitted as the literal wrapper but is *not* added to the
unresolved set — the unresolved count stays 0 instead of increasing by 1. -/
theorem claim_C2_counterexample :
    (resolveVariableAlias [] extNone [] "VAR:999:1").1 = "\x7bVAR:999:1\x7d"
    ∧ (resolveVariableAlias [] extNone [] "VAR:999:1").2 = []
    ∧ "VAR:999:1" ∉ (resolveVariableAlias [] extNone [] "VAR:999:1").2 := by
  refine ⟨by decide, by decide, by decide⟩

/-- C2 witness: with one indexed variable, the unknown id "VAR:999:1"
yields the wrapper and bumps the unresolved count from 0 to 1. -/
theorem claim_C2_witness :
    (resolveVariableAlias [("VAR:1:1", ⟨"colors", ["red"]⟩)] extNone [] "VAR:999:1").1
        = "\x7bVAR:999:1\x7d"
    ∧ (resolveVariableAlias [("VAR:1:1", ⟨"colors", ["red"]⟩)] extNone [] "VAR:999:1").2.length
        = 0 + 1 := by
  have h := claim_C2 [("VAR:1:1", ⟨"colors", ["red"]⟩)] extNone [] "VAR:999:1"
    (by decide) (by decide) (fun rid h => Option.noConfusion h)
  exact ⟨h.1, h.2.2 (by decide)⟩

/-! ## JSON-like payload trees

`JVal` models the plain JavaScript objects used as the token tree:
groups, tokens (`$type`/`$value` objects), and leaf primitives. -/

inductive JVal where
  | vnull
  | vnum (q : ℚ)
  | vbool (b : Bool)
  | vstr (s : String)
  | varr (xs : List JVal)
  | vobj (fs : List (String × JVal))
  deriving Repr

/-- A mode record of a variable collection. -/
structure FigMode where
  modeId : String
  name : String
  deriving DecidableEq, Repr

/-- A variable collection as received from the UI (`""` models a missing
`libraryName`, i.e. a local collection). -/
structure FigCollection where
  id : String
  name : String
  libraryName : String
  modes : Option (List FigMode)
  varList : Option (List FigVar)

/-- JS truthiness for payload values. -/
def jsTruthyJ : JVal → Bool
  | .vnull => false
  | .vnum q => decide (q ≠ 0)
  | .vbool b => b
  | .vstr s => decide (s ≠ "")
  | .varr _ => true
  | .vobj _ => true

/-- Property read on an object (`obj[k]`); `none` models `undefined`. -/
def objGetJ (t : JVal) (k : String) : Option JVal :=
  match t with
  | .vobj fs => fs.lookup k
  | _ => none

/-- Property write on an object (`obj[k] = v`); non-objects are returned
unchanged (the pipeline never writes into non-objects). -/
def objSetJ (t : JVal) (k : String) (v : JVal) : JVal :=
  match t with
  | .vobj fs => .vobj (setAssoc fs k v)
  | _ => t

/-- Embed a converted raw value into the payload tree. -/
def fvalToJVal : FVal → JVal
  | .fnull => .vnull
  | .fnum q => .vnum q
  | .fstr s => .vstr s
  | .fbool b => .vbool b
  | .fcolor r g b a? =>
    .vobj ([("r", .vnum r), ("g", .vnum g), ("b", .vnum b)]
      ++ (match a? with | some a => [("a", .vnum a)] | none => []))
  | .falias i => .vobj [("type", .vstr "VARIABLE_ALIAS"), ("id", .vstr i)]

/-! ## String splitting (`name.split('/')`, `path.split('.')`) -/

def splitOnChar (sep : Char) : List Char → List (List Char)
  | [] => [[]]
  | c :: rest =>
    if c = sep then [] :: splitOnChar sep rest
    else
      match splitOnChar sep rest with
      | [] => [[c]]
      | g :: gs => (c :: g) :: gs

def strSplit (s : String) (sep : Char) : List String :=
  (splitOnChar sep s.data).map (fun l => ⟨l⟩)

example : strSplit "colors/brand/primary" '/' = ["colors", "brand", "primary"] := by decide
example : strSplit "" '/' = [""] := by decide

/-- `s.startsWith(c)` for a single character. -/
def strStartsWithCh (s : String) (c : Char) : Bool :=
  match s.data with
  | [] => false
  | c0 :: _ => c0 = c

/-- `s.endsWith(c)` for a single character. -/
def strEndsWithCh (s : String) (c : Char) : Bool :=
  match s.data.getLast? with
  | some c0 => c0 = c
  | none => false

/-- `s.slice(1, -1)`. -/
def sliceInner (s : String) : String := ⟨(s.data.drop 1).dropLast⟩

/-! ## Token tree building (code.js lines 2019-2080)

The nested-structure walk: descend along the leading path segments,
reusing an existing child when it is truthy (`currentObject[segment] ||
{}`), and write the token at the last segment. -/

def insertToken : JVal → List String → JVal → JVal
  | tree, [], _ => tree
  | tree, [k], tok => objSetJ tree k tok
  | tree, k :: rest, tok =>
    let child :=
      match objGetJ tree k with
      | some c => if jsTruthyJ c then c else JVal.vobj []
      | none => JVal.vobj []
    objSetJ tree k (insertToken child rest tok)

/-- The mode name for a `valuesByMode` entry (code.js lines 2029-2036):
the matching mode's sanitized name, or `"mode-1"`. -/
def modeNameFor (modes : Option (List FigMode)) (modeId : String) : String :=
  match modes with
  | none => "mode-1"
  | some ms =>
    match ms.find? (fun m => decide (m.modeId = modeId)) with
    | some m => if m.name ≠ "" then sanitizeForDTCG m.name else "mode-1"
    | none => "mode-1"

/-- Process one `(modeId, value)` entry of a variable
(code.js lines 2028-2080), threading the collection object and the
unresolved set. -/
def processValueEntry (u : Bool) (β : ℚ) (pathMap : List (String × PathInfo))
    (ext : String → Option String) (varRec : FigVar) (modes : Option (List FigMode))
    (st : JVal × List String) (entry : String × FVal) : JVal × List String :=
  let segs := (strSplit varRec.name '/').map sanitizeForDTCG
  let modeName := modeNameFor modes entry.1
  let collObj1 :=
    match objGetJ st.1 modeName with
    | some c => if jsTruthyJ c then st.1 else objSetJ st.1 modeName (JVal.vobj [])
    | none => objSetJ st.1 modeName (JVal.vobj [])
  let pv : FVal × List String :=
    match entry.2 with
    | FVal.falias aid =>
      if aid ≠ "" then
        let r := resolveVariableAlias pathMap ext st.2 aid
        (FVal.fstr r.1, r.2)
      else (entry.2, st.2)
    | _ => (entry.2, st.2)
  let dtcgType := resolveDTCGType varRec
  let finalValue : FVal :=
    match pv.1 with
    | FVal.fstr s =>
      if strStartsWithCh s '\x7b' && strEndsWithCh s '\x7d' then FVal.fstr s
      else convertFigmaValueToDTCG u β (FVal.fstr s) varRec.resolvedType dtcgType
    | v => convertFigmaValueToDTCG u β v varRec.resolvedType dtcgType
  let token := JVal.vobj [("$type", JVal.vstr dtcgType), ("$value", fvalToJVal finalValue)]
  let modeObj :=
    match objGetJ collObj1 modeName with
    | some c => c
    | none => JVal.vobj []
  (objSetJ collObj1 modeName (insertToken modeObj segs token), pv.2)

/-- Process one variable (code.js lines 2021-2081). -/
def processVariable (u : Bool) (β : ℚ) (pathMap : List (String × PathInfo))
    (ext : String → Option String) (modes : Option (List FigMode))
    (st : JVal × List String) (varRec : FigVar) : JVal × List String :=
  if varRec.name = "" then st
  else
    match varRec.valuesByMode with
    | none => st
    | some entries => entries.foldl (processValueEntry u β pathMap ext varRec modes) st

/-- The mode skeleton of a fresh collection object
(code.js lines 2006-2017): one empty object per (truthy-named) mode, or
a single `"mode-1"` when the mode list is missing or empty. -/
def initModes (modes : Option (List FigMode)) : JVal :=
  match modes with
  | some ms =>
    if ms.length > 0 then
      ms.foldl
        (fun obj m =>
          if m.name = "" then obj else objSetJ obj (sanitizeForDTCG m.name) (JVal.vobj []))
        (JVal.vobj [])
    else JVal.vobj [("mode-1", JVal.vobj [])]
  | none => JVal.vobj [("mode-1", JVal.vobj [])]

/-- Ghost record of one processed collection: raw name, raw origin,
de-duplication signature, and the payload key it received. -/
structure TraceEntry where
  name : String
  lib : String
  sig : String
  key : String
  deriving DecidableEq, Repr

/-- The mutable state of the second pass of
`createSimplifiedDTCGPayload`: the payload under construction, the
processed-signature set, the `usedCollectionNames` map, the unresolved
set, and the ghost trace. -/
structure BuildSt where
  payload : List (String × JVal)
  sigs : List String
  used : List (String × KeyEntry)
  unresolved : List String
  trace : List TraceEntry

/-- Process one collection in the second pass (code.js lines 1982-2084
for local collections and 2087-2187 for shared ones; the two loops are
identical up to logging). -/
def processCollection (u : Bool) (β : ℚ) (pathMap : List (String × PathInfo))
    (ext : String → Option String) (st : BuildSt) (c : FigCollection) : BuildSt :=
  if c.name = "" then st
  else
    let sName := sanitizeForDTCG c.name
    let sLib := sanitizeForDTCG (if c.libraryName = "" then "unnamed-library" else c.libraryName)
    let sig := sLib ++ "::" ++ sName
    if sig ∈ st.sigs then st
    else
      let kr := getFinalCollectionKey st.used c.name c.libraryName
      let start := (initModes c.modes, st.unresolved)
      let built :=
        match c.varList with
        | none => start
        | some vars => vars.foldl (processVariable u β pathMap ext c.modes) start
      { payload := setAssoc st.payload kr.1 built.1,
        sigs := st.sigs ++ [sig],
        used := kr.2,
        unresolved := built.2,
        trace := st.trace ++ [⟨c.name, c.libraryName, sig, kr.1⟩] }

/-! ## First pass: the path index (code.js lines 1833-1911) -/

/-- Index one local variable (code.js lines 1852-1863): skipped when the
name or id is missing. -/
def pass1LocalVar (key : String) (pm : List (String × PathInfo)) (v : FigVar) :
    List (String × PathInfo) :=
  if v.name = "" ∨ v.id = "" then pm
  else setAssoc pm v.id ⟨key, (strSplit v.name '/').map sanitizeForDTCG⟩

/-- Index one shared variable (code.js lines 1890-1909): skipped only
when the id is missing; a missing name behaves as the empty string. -/
def pass1SharedVar (key : String) (pm : List (String × PathInfo)) (v : FigVar) :
    List (String × PathInfo) :=
  if v.id = "" then pm
  else setAssoc pm v.id ⟨key, (strSplit v.name '/').map sanitizeForDTCG⟩

/-- First-pass state: path index, processed signatures, used names. -/
structure Pass1St where
  pm : List (String × PathInfo)
  sigs : List String
  used : List (String × KeyEntry)

/-- First-pass handling of a local collection (code.js lines 1837-1864).
Note that this loop checks the signature set but — unlike every other
loop — never adds to it. -/
def pass1Local (st : Pass1St) (c : FigCollection) : Pass1St :=
  if c.name = "" ∨ c.varList = none then st
  else
    let sName := sanitizeForDTCG c.name
    let sLib := sanitizeForDTCG (if c.libraryName = "" then "unnamed-library" else c.libraryName)
    let sig := sLib ++ "::" ++ sName
    if sig ∈ st.sigs then st
    else
      let kr := getFinalCollectionKey st.used c.name c.libraryName
      { pm := (match c.varList with
               | none => st.pm
               | some vars => vars.foldl (pass1LocalVar kr.1) st.pm),
        sigs := st.sigs,
        used := kr.2 }

/-- First-pass handling of a shared collection (code.js lines 1870-1910). -/
def pass1Shared (st : Pass1St) (c : FigCollection) : Pass1St :=
  if c.name = "" ∨ c.varList = none then st
  else
    let sName := sanitizeForDTCG c.name
    let sLib := sanitizeForDTCG (if c.libraryName = "" then "unnamed-library" else c.libraryName)
    let sig := sLib ++ "::" ++ sName
    if sig ∈ st.sigs then st
    else
      let kr := getFinalCollectionKey st.used c.name c.libraryName
      { pm := (match c.varList with
               | none => st.pm
               | some vars => vars.foldl (pass1SharedVar kr.1) st.pm),
        sigs := st.sigs ++ [sig],
        used := kr.2 }

/-- The raw input of the payload builder: `figmaData.local` and
`figmaData.shared` (either may be absent). -/
structure FigData where
  localCollections : Option (List FigCollection)
  sharedCollections : Option (List FigCollection)

/-- The first pass of `createSimplifiedDTCGPayload`: build the path
index. -/
def buildPathMap (fd : FigData) : List (String × PathInfo) :=
  let st0 : Pass1St := ⟨[], [], []⟩
  let st1 :=
    match fd.localCollections with
    | none => st0
    | some cs => cs.foldl pass1Local st0
  let st2 :=
    match fd.sharedCollections with
    | none => st1
    | some cs => cs.foldl pass1Shared st1
  st2.pm

/-- The second pass plus dedup bookkeeping of
`createSimplifiedDTCGPayload`. -/
def buildSt2 (u : Bool) (β : ℚ) (ext : String → Option String) (fd : FigData) : BuildSt :=
  let pathMap := buildPathMap fd
  let st0 : BuildSt := ⟨[], [], [], [], []⟩
  let st1 :=
    match fd.localCollections with
    | none => st0
    | some cs => cs.foldl (processCollection u β pathMap ext) st0
  match fd.sharedCollections with
  | none => st1
  | some cs => cs.foldl (processCollection u β pathMap ext) st1

/-- The result of the payload builder: the token tree, the unresolved
set, and the ghost trace of processed collections. -/
structure BuildResult where
  payload : List (String × JVal)
  unresolved : List String
  trace : List TraceEntry

/-- `createSimplifiedDTCGPayload(figmaData)` from code.js
lines 1797-2239: both passes, plus the `default-tokens` fallback for an
empty result (lines 2189-2194). -/
def createSimplifiedDTCGPayload (u : Bool) (β : ℚ) (ext : String → Option String)
    (fd : FigData) : BuildResult :=
  let st2 := buildSt2 u β ext fd
  ⟨if st2.payload.length = 0 then
      setAssoc st2.payload "default-tokens" (JVal.vobj [("mode-1", JVal.vobj [])])
    else st2.payload,
   st2.unresolved, st2.trace⟩

/-- The top-level collection keys of the built tree. -/
def topKeys (p : List (String × JVal)) : List String := p.map Prod.fst

/-- C4 witness. -/
theorem claim_C4_witness :
    resolveDTCGType ⟨"v1", "flag", "BOOLEAN", [], none⟩ = "string"
      ∧ convertFigmaValueToDTCG false 16 (fbool false) "BOOLEAN" "string"
          = fbool (jsTruthy (fbool false)) := by
  refine ⟨claim_C4.1 "v1" "flag" [] none, ?_⟩
  exact (claim_C4.2 false 16 (fbool false) "string" (fun h => FVal.noConfusion h)
    (fun s h => FVal.noConfusion h)).1

/-! ## C10: the default-tokens fallback -/

theorem createPayload_payload (u : Bool) (β : ℚ) (ext : String → Option String)
    (fd : FigData) :
    (createSimplifiedDTCGPayload u β ext fd).payload =
      if (buildSt2 u β ext fd).payload.length = 0 then
        setAssoc (buildSt2 u β ext fd).payload "default-tokens"
          (JVal.vobj [("mode-1", JVal.vobj [])])
      else (buildSt2 u β ext fd).payload := rfl

/-- C10: when the local and shared collection lists are both empty or
absent, the payload builder returns exactly the fallback tree with the
single collection `default-tokens` holding the single empty mode
`mode-1`; and on every input the top-level key list of the returned
tree is non-empty. -/
theorem claim_C10 (u : Bool) (β : ℚ) (ext : String → Option String) (fd : FigData) :
    topKeys (createSimplifiedDTCGPayload u β ext fd).payload ≠ []
    ∧ ((fd.localCollections = none ∨ fd.localCollections = some []) →
       (fd.sharedCollections = none ∨ fd.sharedCollections = some []) →
       (createSimplifiedDTCGPayload u β ext fd).payload
         = [("default-tokens", JVal.vobj [("mode-1", JVal.vobj [])])]) := by
  constructor
  · rw [createPayload_payload]
    cases h : (buildSt2 u β ext fd).payload with
    | nil => simp [setAssoc, topKeys]
    | cons a l => simp [topKeys]
  · intro h1 h2
    rcases fd with ⟨lc, sc⟩
    rcases h1 with h1 | h1 <;> rcases h2 with h2 | h2 <;>
      (subst h1; subst h2; rfl)

/-- C10 witness. -/
theorem claim_C10_witness :
    topKeys (createSimplifiedDTCGPayload false 16 extNone ⟨none, some []⟩).payload ≠ []
    ∧ (createSimplifiedDTCGPayload false 16 extNone ⟨none, some []⟩).payload
        = [("default-tokens", JVal.vobj [("mode-1", JVal.vobj [])])] :=
  ⟨(claim_C10 false 16 extNone ⟨none, some []⟩).1,
   (claim_C10 false 16 extNone ⟨none, some []⟩).2 (Or.inl rfl) (Or.inr rfl)⟩

/-! ## C3: collection de-duplication across origins -/

/-- A local collection named Spacing (no library origin). -/
def cexLocalCols : List FigCollection :=
  [⟨"c1", "Spacing", "", some [⟨"m1", "Light"⟩], some []⟩]

/-- A shared collection also named Spacing, from library DesignSystem. -/
def cexSharedCols : List FigCollection :=
  [⟨"c2", "Spacing", "DesignSystem", some [⟨"m1", "Light"⟩], some []⟩]

/-- A shared duplicate of the local Spacing collection (same origin). -/
def cexSharedSame : List FigCollection :=
  [⟨"c3", "Spacing", "", some [⟨"m1", "Light"⟩], some []⟩]

theorem processCollection_inv (u : Bool) (β : ℚ) (pm : List (String × PathInfo))
    (ext : String → Option String) (c : FigCollection) (st : BuildSt)
    (h : st.sigs = st.trace.map TraceEntry.sig ∧ st.sigs.Nodup) :
    (processCollection u β pm ext st c).sigs
        = (processCollection u β pm ext st c).trace.map TraceEntry.sig
      ∧ (processCollection u β pm ext st c).sigs.Nodup := by
  simp only [processCollection]
  split
  · exact h
  · generalize (if c.libraryName = "" then "unnamed-library" else c.libraryName) = lib0
    split
    · exact h
    · rename_i hsig
      refine ⟨?_, ?_⟩
      · simp [h.1]
      · simp [List.nodup_append, h.2, hsig]

theorem foldl_processCollection_inv (u : Bool) (β : ℚ) (pm : List (String × PathInfo))
    (ext : String → Option String) (cs : List FigCollection) (st : BuildSt)
    (h : st.sigs = st.trace.map TraceEntry.sig ∧ st.sigs.Nodup) :
    (cs.foldl (processCollection u β pm ext) st).sigs
        = (cs.foldl (processCollection u β pm ext) st).trace.map TraceEntry.sig
      ∧ (cs.foldl (processCollection u β pm ext) st).sigs.Nodup := by
  induction cs generalizing st with
  | nil => exact h
  | cons c cs ih => exact ih _ (processCollection_inv u β pm ext c st h)

theorem buildSt2_inv (u : Bool) (β : ℚ) (ext : String → Option String) (fd : FigData) :
    (buildSt2 u β ext fd).sigs = (buildSt2 u β ext fd).trace.map TraceEntry.sig
      ∧ (buildSt2 u β ext fd).sigs.Nodup := by
  have h0 : (⟨[], [], [], [], []⟩ : BuildSt).sigs
      = (⟨[], [], [], [], []⟩ : BuildSt).trace.map TraceEntry.sig
      ∧ (⟨[], [], [], [], []⟩ : BuildSt).sigs.Nodup := ⟨rfl, List.nodup_nil⟩
  cases hl : fd.localCollections with
  | none =>
    cases hs : fd.sharedCollections with
    | none => simp only [buildSt2, hl, hs]; exact h0
    | some cs => simp only [buildSt2, hl, hs]; exact foldl_processCollection_inv _ _ _ _ _ _ h0
  | some cl =>
    cases hs : fd.sharedCollections with
    | none =>
      simp only [buildSt2, hl, hs]
      exact foldl_processCollection_inv _ _ _ _ _ _ h0
    | some cs =>
      simp only [buildSt2, hl, hs]
      exact foldl_processCollection_inv _ _ _ _ _ _
        (foldl_processCollection_inv _ _ _ _ _ _ h0)

/-- C3 (amended): de-duplication is by (origin, name) signature, not by
bare name: the signatures of the processed-collection trace are always
duplicate-free, and a shared collection that repeats the name AND origin
of an already-processed local collection is skipped, leaving a single
tree entry; but the same bare name under two different origins is NOT
merged (see the counterexample). -/
theorem claim_C3 (u : Bool) (β : ℚ) (ext : String → Option String) (fd : FigData) :
    ((createSimplifiedDTCGPayload u β ext fd).trace.map TraceEntry.sig).Nodup
    ∧ topKeys (createSimplifiedDTCGPayload false 16 extNone
        ⟨some cexLocalCols, some cexSharedSame⟩).payload = ["spacing"]
    ∧ (createSimplifiedDTCGPayload false 16 extNone
        ⟨some cexLocalCols, some cexSharedSame⟩).trace.length = 1 := by
  refine ⟨?_, by decide, by decide⟩
  have h := buildSt2_inv u β ext fd
  have he : (createSimplifiedDTCGPayload u β ext fd).trace = (buildSt2 u β ext fd).trace := rfl
  rw [he, ← h.1]
  exact h.2

/-- C3 counterexample: the collection name Spacing appears under the
local origin and under the library origin DesignSystem, yet the final
tree contains TWO entries for it (`spacing` and `spacing-designsystem`),
refuting "exactly one entry for that collection". -/
theorem claim_C3_counterexample :
    topKeys (createSimplifiedDTCGPayload false 16 extNone
        ⟨some cexLocalCols, some cexSharedCols⟩).payload
      = ["spacing", "spacing-designsystem"]
    ∧ cexLocalCols.map FigCollection.name = ["Spacing"]
    ∧ cexLocalCols.map FigCollection.libraryName = [""]
    ∧ cexSharedCols.map FigCollection.name = ["Spacing"]
    ∧ cexSharedCols.map FigCollection.libraryName = ["DesignSystem"]
    ∧ ((createSimplifiedDTCGPayload false 16 extNone
        ⟨some cexLocalCols, some cexSharedCols⟩).trace.filter
          (fun e => decide (e.name = "Spacing"))).length = 2 := by
  decide

/-! ## The JavaScript object-literal emitter
(`generateJSCodeFromPayload` / `generateJSCodeRecursive`,
code.js lines 1369-1507) -/

/-- `'  '.repeat(indentLevel)`. -/
def indentStr (n : ℕ) : String := ⟨List.replicate (2 * n) ' '⟩

/-- `value.replace(/'/g, "\\'")` — escape single quotes
(code.js line 1401). -/
def escapeQuotesJS (s : String) : String :=
  ⟨s.data.foldr (fun c acc => if c = '\x27' then '\\' :: '\x27' :: acc else c :: acc) []⟩

/-- `/^[a-zA-Z_$][a-zA-Z0-9_$]*$/` on the first character. -/
def identStartCh (c : Char) : Bool :=
  c.isLower || c.isUpper || c = '_' || c = '$'

def identCh (c : Char) : Bool := identStartCh c || c.isDigit

/-- `/^[a-zA-Z_$][a-zA-Z0-9_$]*$/.test(key)` (code.js line 1496). -/
def isValidJsIdent (s : String) : Bool :=
  match s.data with
  | [] => false
  | c :: rest => identStartCh c && rest.all identCh

/-- `/^\d+$/.test(s)` (code.js line 1459). -/
def isNumericStr (s : String) : Bool :=
  decide (s ≠ "") && s.data.all (fun c => '0' ≤ c && c ≤ '9')

/-- `array.join(sep)` for a one-character separator. -/
def joinChar (sep : Char) : List String → String
  | [] => ""
  | [s] => s
  | s :: rest => s ++ ⟨[sep]⟩ ++ joinChar sep rest

/-- `str.lastIndexOf(c)`; `none` models -1. -/
def lastIndexOfChar (c : Char) : List Char → Option ℕ
  | [] => none
  | x :: rest =>
    match lastIndexOfChar c rest with
    | some i => some (i + 1)
    | none => if x = c then some 0 else none

/-- The alias-path transform of `generateJSCodeRecursive`
(code.js lines 1432-1467): split the inner path on dots, inject the
second segment of the current location (`pathContext[1]`, when present
and truthy) as the second segment, join with dots, and replace a purely
numeric trailing segment by the `LB`/`RB` bracket placeholders.
`pathContext.getD 1 ""` is falsy exactly when the JS `contextSegment`
(null when `pathContext.length < 2`) is falsy. -/
def jsonAliasPath (innerPath : String) (pathContext : List String) : String :=
  let segments := strSplit innerPath '.'
  let ctx := pathContext.getD 1 ""
  let finalSegments :=
    if ctx ≠ "" ∧ segments.length > 1 then
      segments.take 1 ++ ctx :: segments.drop 1
    else segments
  let pathString := joinChar '.' finalSegments
  let lastSegment := (finalSegments.getLast?).getD ""
  if isNumericStr lastSegment then
    match lastIndexOfChar '.' pathString.data with
    | some i => (⟨pathString.data.take i⟩ : String) ++ "LB" ++ lastSegment ++ "RB"
    | none => pathString
  else pathString

/-- The token-leaf rendering inside the `$type`/`$value` branch
(code.js lines 1431-1479): alias strings go through the path transform,
other strings are quoted (the `replace(/'/g, "\'")` at line 1477 is a
no-op since `"\'"` is just a quote), and numbers are stringified
without re-rounding (reachable `$value` numbers already carry at most 3
decimals, so `jsNumToString` is exact). `none` means the recursive
fallback applies. -/
def genAliasOrLeaf (ev : JVal) (pc : List String) : Option String :=
  match ev with
  | JVal.vstr s =>
    some (if strStartsWithCh s '\x7b' && strEndsWithCh s '\x7d' then
            jsonAliasPath (sliceInner s) pc
          else "\x27" ++ s ++ "\x27")
  | JVal.vnum q => some (jsNumToString q)
  | _ => none

theorem sizeOf_lookup_lt : ∀ {fs : List (String × JVal)} {k : String} {v : JVal},
    fs.lookup k = some v → sizeOf v < sizeOf fs := by
  intro fs
  induction fs with
  | nil => intro k v h; simp [List.lookup] at h
  | cons p rest ih =>
    intro k v h
    obtain ⟨k0, v0⟩ := p
    rw [List.lookup] at h
    split at h
    · cases h
      simp only [List.cons.sizeOf_spec, Prod.mk.sizeOf_spec]
      omega
    · have := ih h
      simp only [List.cons.sizeOf_spec, Prod.mk.sizeOf_spec]
      omega

theorem sizeOf_mem_pair_lt {fs : List (String × JVal)} {e : String × JVal}
    (h : e ∈ fs) : sizeOf e.2 < sizeOf fs := by
  have h1 := List.sizeOf_lt_of_mem h
  obtain ⟨a, b⟩ := e
  simp only [Prod.mk.sizeOf_spec] at h1 ⊢
  omega

/-- `generateJSCodeRecursive(currentValue, pathContext, indentLevel)`
(code.js lines 1390-1507), producing the phase-1 string (with the
`LB`/`RB` placeholders still in place). -/
def genVal : JVal → List String → ℕ → String
  | JVal.vnull, _, _ => "null"
  | JVal.vstr s, _, _ => "\x27" ++ escapeQuotesJS s ++ "\x27"
  | JVal.vnum q, _, _ => jsNumToString (roundToMaxThreeDecimals q)
  | JVal.vbool b, _, _ => if b then "true" else "false"
  | JVal.varr xs, pc, il =>
    if xs.length = 0 then "[]"
    else
      let items := xs.attach.map (fun x => genVal x.1 pc (il + 1))
      "[\n" ++ indentStr (il + 1)
        ++ String.intercalate (",\n" ++ indentStr (il + 1)) items
        ++ "\n" ++ indentStr il ++ "]"
  | JVal.vobj fs, pc, il =>
    if htok : (match fs.lookup "$type" with
               | some t => jsTruthyJ t
               | none => false) = true
        ∧ (fs.lookup "$value").isSome = true then
      let ev := (fs.lookup "$value").get htok.2
      match genAliasOrLeaf ev pc with
      | some r => r
      | none => genVal ev pc il
    else
      if fs.length = 0 then "\x7b\x7d"
      else
        let entries := fs.attach.map (fun e =>
          indentStr (il + 1)
            ++ (if isValidJsIdent e.1.1 then e.1.1 else "\x27" ++ e.1.1 ++ "\x27")
            ++ ": " ++ genVal e.1.2 (pc ++ [e.1.1]) (il + 1))
        "\x7b\n" ++ String.intercalate ",\n" entries ++ "\n" ++ indentStr il ++ "\x7d"
  termination_by v _ _ => sizeOf v
  decreasing_by
  · simp_wf
    have := List.sizeOf_lt_of_mem x.2
    omega
  · simp_wf
    have := sizeOf_lookup_lt (Option.some_get htok.2).symm
    omega
  · simp_wf
    have := sizeOf_mem_pair_lt e.2
    omega

/-- `str.replace(/LB/g, '["')` as a left-to-right scan. -/
def replaceLBAux : List Char → List Char
  | [] => []
  | [c] => [c]
  | c :: c2 :: rest2 =>
    if c = 'L' ∧ c2 = 'B' then '[' :: '"' :: replaceLBAux rest2
    else c :: replaceLBAux (c2 :: rest2)

/-- `str.replace(/RB/g, '"]')` as a left-to-right scan. -/
def replaceRBAux : List Char → List Char
  | [] => []
  | [c] => [c]
  | c :: c2 :: rest2 =>
    if c = 'R' ∧ c2 = 'B' then '"' :: ']' :: replaceRBAux rest2
    else c :: replaceRBAux (c2 :: rest2)

/-- `generateJSCodeFromPayload(dtcgPayload)` (code.js lines 1369-1381):
phase 1 plus the two placeholder-replacement passes; non-object inputs
yield the empty literal. -/
def generateJSCodeFromPayload (p : JVal) : String :=
  match p with
  | JVal.vobj _ => ⟨replaceRBAux (replaceLBAux (genVal p [] 0).data)⟩
  | JVal.varr _ => ⟨replaceRBAux (replaceLBAux (genVal p [] 0).data)⟩
  | _ => "\x7b\x7d"

/-- Unfolding of `genVal` at a two-field token object with a truthy
`$type` and a string `$value`: the token branch applies. -/
theorem genVal_token (t s : String) (pc : List String) (il : ℕ) (ht : t ≠ "") :
    genVal (JVal.vobj [("$type", JVal.vstr t), ("$value", JVal.vstr s)]) pc il
      = (if strStartsWithCh s '\x7b' && strEndsWithCh s '\x7d' then
           jsonAliasPath (sliceInner s) pc
         else "\x27" ++ s ++ "\x27") := by
  rw [genVal.eq_def]
  have hc : (match ([("$type", JVal.vstr t), ("$value", JVal.vstr s)] :
        List (String × JVal)).lookup "$type" with
      | some t0 => jsTruthyJ t0
      | none => false) = true
      ∧ (([("$type", JVal.vstr t), ("$value", JVal.vstr s)] :
        List (String × JVal)).lookup "$value").isSome = true := by
    refine ⟨?_, rfl⟩
    show jsTruthyJ (JVal.vstr t) = true
    simpa [jsTruthyJ] using ht
  simp only [genVal]
  rw [dif_pos hc]
  rfl

/-- The phase-1 plus phase-2 rendering of one `$type`/`$value` token
leaf: the placeholder replacement is applied by
`generateJSCodeFromPayload` to the whole program text, and acts on each
leaf independently. -/
def emitTokenJS (ty v : String) (pc : List String) (il : ℕ) : String :=
  ⟨replaceRBAux (replaceLBAux
    (genVal (JVal.vobj [("$type", JVal.vstr ty), ("$value", JVal.vstr v)]) pc il).data)⟩

/-- The character class of `sanitizeForDTCG` output: ASCII lowercase,
digits, hyphen, underscore. -/
def sanitizedCh (c : Char) : Bool := c.isLower || c.isDigit || c = '-' || c = '_'

theorem sanitizedCh_props {c : Char} (h : sanitizedCh c = true) :
    c ≠ '.' ∧ c ≠ 'L' ∧ c ≠ 'R' := by
  refine ⟨?_, ?_, ?_⟩ <;> rintro rfl <;> revert h <;> decide

theorem splitOnChar_no_sep (sep : Char) :
    ∀ l : List Char, sep ∉ l → splitOnChar sep l = [l] := by
  intro l
  induction l with
  | nil => intro _; rfl
  | cons c rest ih =>
    intro h
    have hc : ¬c = sep := fun he => h (he ▸ List.mem_cons_self c rest)
    simp only [splitOnChar, if_neg hc]
    rw [ih (fun hm => h (List.mem_cons_of_mem _ hm))]

theorem splitOnChar_append (sep : Char) (b : List Char) :
    ∀ a : List Char, sep ∉ a →
      splitOnChar sep (a ++ sep :: b) = a :: splitOnChar sep b := by
  intro a
  induction a with
  | nil =>
    intro _
    simp [splitOnChar]
  | cons c a2 ih =>
    intro h
    have hc : ¬c = sep := fun he => h (he ▸ List.mem_cons_self c a2)
    simp only [List.cons_append, splitOnChar, if_neg hc, List.append_eq]
    rw [ih (fun hm => h (List.mem_cons_of_mem _ hm))]

theorem joinChar_data (sep : Char) (s0 : String) (rest : List String) (h : rest ≠ []) :
    (joinChar sep (s0 :: rest)).data = s0.data ++ sep :: (joinChar sep rest).data := by
  cases rest with
  | nil => exact absurd rfl h
  | cons s1 r =>
    show (s0 ++ ⟨[sep]⟩ ++ joinChar sep (s1 :: r)).data = _
    rw [String.data_append, String.data_append]
    simp

theorem strSplit_joinChar (sep : Char) :
    ∀ ss : List String, ss ≠ [] → (∀ s ∈ ss, sep ∉ s.data) →
      strSplit (joinChar sep ss) sep = ss := by
  intro ss
  induction ss with
  | nil => intro h; exact absurd rfl h
  | cons s0 rest ih =>
    intro _ hall
    cases rest with
    | nil =>
      show (splitOnChar sep s0.data).map (fun l => (⟨l⟩ : String)) = [s0]
      rw [splitOnChar_no_sep sep s0.data (hall s0 (List.mem_cons_self s0 []))]
      rfl
    | cons s1 r =>
      show (splitOnChar sep (joinChar sep (s0 :: s1 :: r)).data).map
          (fun l => (⟨l⟩ : String)) = s0 :: s1 :: r
      rw [joinChar_data sep s0 (s1 :: r) (by simp)]
      rw [splitOnChar_append sep _ s0.data (hall s0 (List.mem_cons_self s0 _))]
      show s0 :: strSplit (joinChar sep (s1 :: r)) sep = s0 :: s1 :: r
      rw [ih (by simp) (fun s hs => hall s (List.mem_cons_of_mem _ hs))]

theorem joinChar_append_last (sep : Char) (t : String) :
    ∀ ss : List String, ss ≠ [] →
      joinChar sep (ss ++ [t]) = joinChar sep ss ++ ⟨[sep]⟩ ++ t := by
  intro ss
  induction ss with
  | nil => intro h; exact absurd rfl h
  | cons s0 rest ih =>
    intro _
    cases rest with
    | nil => rfl
    | cons s1 r =>
      show s0 ++ ⟨[sep]⟩ ++ joinChar sep ((s1 :: r) ++ [t])
          = (s0 ++ ⟨[sep]⟩ ++ joinChar sep (s1 :: r)) ++ ⟨[sep]⟩ ++ t
      rw [ih (by simp)]
      apply String.ext
      simp [String.data_append, List.append_assoc]

theorem mem_joinChar_data (sep : Char) :
    ∀ (ss : List String) (c : Char), c ∈ (joinChar sep ss).data →
      c = sep ∨ ∃ s ∈ ss, c ∈ s.data := by
  intro ss
  induction ss with
  | nil => intro c h; exact absurd h (by simp [joinChar])
  | cons s0 rest ih =>
    intro c h
    cases rest with
    | nil => exact Or.inr ⟨s0, List.mem_cons_self s0 [], h⟩
    | cons s1 r =>
      rw [joinChar_data sep s0 (s1 :: r) (by simp)] at h
      rcases List.mem_append.mp h with h | h
      · exact Or.inr ⟨s0, List.mem_cons_self s0 _, h⟩
      · rcases List.mem_cons.mp h with h | h
        · exact Or.inl h
        · rcases ih c h with h | ⟨s, hs, hc⟩
          · exact Or.inl h
          · exact Or.inr ⟨s, List.mem_cons_of_mem _ hs, hc⟩

theorem lastIndexOfChar_none (c : Char) :
    ∀ l : List Char, c ∉ l → lastIndexOfChar c l = none := by
  intro l
  induction l with
  | nil => intro _; rfl
  | cons x rest ih =>
    intro h
    have hx : ¬x = c := fun he => h (he ▸ List.mem_cons_self x rest)
    simp only [lastIndexOfChar]
    rw [ih (fun hm => h (List.mem_cons_of_mem _ hm))]
    simp [hx]

theorem lastIndexOfChar_append (c : Char) (b : List Char) (hb : c ∉ b) :
    ∀ a : List Char, lastIndexOfChar c (a ++ c :: b) = some a.length := by
  intro a
  induction a with
  | nil =>
    simp only [List.nil_append, lastIndexOfChar]
    rw [lastIndexOfChar_none c b hb]
    simp
  | cons x a2 ih =>
    simp only [List.cons_append, lastIndexOfChar, List.append_eq]
    rw [ih]
    simp

theorem replaceLBAux_cons (c : Char) (rest : List Char) (hc : c ≠ 'L') :
    replaceLBAux (c :: rest) = c :: replaceLBAux rest := by
  cases rest with
  | nil => rfl
  | cons c2 r2 =>
    show (if c = 'L' ∧ c2 = 'B' then _ else _) = _
    rw [if_neg (fun h => hc h.1)]

theorem replaceLBAux_id : ∀ l : List Char, 'L' ∉ l → replaceLBAux l = l := by
  intro l
  induction l with
  | nil => intro _; rfl
  | cons c rest ih =>
    intro h
    rw [replaceLBAux_cons c rest (fun he => h (he ▸ List.mem_cons_self c rest))]
    rw [ih (fun hm => h (List.mem_cons_of_mem _ hm))]

theorem replaceLBAux_hit (suf : List Char) :
    ∀ pre : List Char, 'L' ∉ pre →
      replaceLBAux (pre ++ 'L' :: 'B' :: suf) = pre ++ '[' :: '"' :: replaceLBAux suf := by
  intro pre
  induction pre with
  | nil =>
    intro _
    show (if ('L' : Char) = 'L' ∧ ('B' : Char) = 'B' then _ else _) = _
    rw [if_pos ⟨rfl, rfl⟩]
    rfl
  | cons x pre2 ih =>
    intro h
    have hx : x ≠ 'L' := fun he => h (he ▸ List.mem_cons_self x pre2)
    rw [List.cons_append, replaceLBAux_cons x _ hx,
      ih (fun hm => h (List.mem_cons_of_mem _ hm))]
    rfl

theorem replaceRBAux_cons (c : Char) (rest : List Char) (hc : c ≠ 'R') :
    replaceRBAux (c :: rest) = c :: replaceRBAux rest := by
  cases rest with
  | nil => rfl
  | cons c2 r2 =>
    show (if c = 'R' ∧ c2 = 'B' then _ else _) = _
    rw [if_neg (fun h => hc h.1)]

theorem replaceRBAux_id : ∀ l : List Char, 'R' ∉ l → replaceRBAux l = l := by
  intro l
  induction l with
  | nil => intro _; rfl
  | cons c rest ih =>
    intro h
    rw [replaceRBAux_cons c rest (fun he => h (he ▸ List.mem_cons_self c rest))]
    rw [ih (fun hm => h (List.mem_cons_of_mem _ hm))]

theorem replaceRBAux_hit (suf : List Char) :
    ∀ pre : List Char, 'R' ∉ pre →
      replaceRBAux (pre ++ 'R' :: 'B' :: suf) = pre ++ '"' :: ']' :: replaceRBAux suf := by
  intro pre
  induction pre with
  | nil =>
    intro _
    show (if ('R' : Char) = 'R' ∧ ('B' : Char) = 'B' then _ else _) = _
    rw [if_pos ⟨rfl, rfl⟩]
    rfl
  | cons x pre2 ih =>
    intro h
    have hx : x ≠ 'R' := fun he => h (he ▸ List.mem_cons_self x pre2)
    rw [List.cons_append, replaceRBAux_cons x _ hx,
      ih (fun hm => h (List.mem_cons_of_mem _ hm))]
    rfl

/-- Behaviour of the alias-path transform on a joined dot-free segment
list of length at least 2, with a present, truthy, dot-free context
segment: the context is injected in second position; a numeric trailing
segment becomes the `LB`/`RB` placeholder form. -/
theorem jsonAliasPath_spec (s0 m lst : String) (mid : List String) (pc : List String)
    (hpc : pc.getD 1 "" = m) (hm : m ≠ "")
    (hnd : ∀ s ∈ s0 :: mid ++ [lst], ('.' : Char) ∉ s.data) :
    jsonAliasPath (joinChar '.' (s0 :: mid ++ [lst])) pc
      = if isNumericStr lst then
          joinChar '.' (s0 :: m :: mid) ++ "LB" ++ lst ++ "RB"
        else joinChar '.' (s0 :: m :: mid ++ [lst]) := by
  have hsplit : strSplit (joinChar '.' (s0 :: mid ++ [lst])) '.' = s0 :: mid ++ [lst] :=
    strSplit_joinChar '.' _ (by simp) hnd
  have hlen : m ≠ "" ∧ (s0 :: mid ++ [lst]).length > 1 := by
    refine ⟨hm, ?_⟩
    simp only [List.length_cons, List.length_append]
    omega
  have hlast : ((s0 :: m :: (mid ++ [lst])).getLast?).getD "" = lst := by
    rw [show s0 :: m :: (mid ++ [lst]) = (s0 :: m :: mid) ++ [lst] by simp,
      List.getLast?_concat]
    rfl
  simp only [jsonAliasPath, hsplit, hpc]
  rw [if_pos hlen]
  rw [show List.take 1 (s0 :: mid ++ [lst]) ++ m :: List.drop 1 (s0 :: mid ++ [lst])
      = s0 :: m :: (mid ++ [lst]) by simp]
  rw [hlast]
  by_cases hn : isNumericStr lst = true
  · rw [if_pos hn, if_pos hn]
    have hjoin : joinChar '.' (s0 :: m :: (mid ++ [lst]))
        = joinChar '.' (s0 :: m :: mid) ++ ⟨['.']⟩ ++ lst := by
      rw [show s0 :: m :: (mid ++ [lst]) = (s0 :: m :: mid) ++ [lst] by simp]
      exact joinChar_append_last '.' lst (s0 :: m :: mid) (by simp)
    have hdata : (joinChar '.' (s0 :: m :: (mid ++ [lst]))).data
        = (joinChar '.' (s0 :: m :: mid)).data ++ '.' :: lst.data := by
      rw [hjoin, String.data_append, String.data_append]
      simp
    rw [hdata, lastIndexOfChar_append '.' lst.data
      (hnd lst (by simp)) (joinChar '.' (s0 :: m :: mid)).data]
    show (⟨(((joinChar '.' (s0 :: m :: mid)).data ++ '.' :: lst.data).take
        (joinChar '.' (s0 :: m :: mid)).data.length)⟩ : String) ++ "LB" ++ lst ++ "RB" = _
    rw [List.take_left]
  · rw [if_neg hn, if_neg hn]
    rfl

/-- Phase 2 on a placeholder-free string is the identity. -/
theorem phase2_id (l : List Char) (hL : 'L' ∉ l) (hR : 'R' ∉ l) :
    replaceRBAux (replaceLBAux l) = l := by
  rw [replaceLBAux_id l hL, replaceRBAux_id l hR]

/-- Phase 2 turns a single trailing `LB`/`RB` placeholder pair into
bracket-index syntax. -/
theorem phase2_bracket (A : List Char) (lst : String)
    (hAL : 'L' ∉ A) (hAR : 'R' ∉ A)
    (hlL : 'L' ∉ lst.data) (hlR : 'R' ∉ lst.data) :
    replaceRBAux (replaceLBAux (A ++ 'L' :: 'B' :: (lst.data ++ ['R', 'B'])))
      = A ++ '[' :: '"' :: (lst.data ++ ['"', ']']) := by
  rw [replaceLBAux_hit _ A hAL]
  rw [replaceLBAux_id _ (by
    intro hmem
    rcases List.mem_append.mp hmem with h | h
    · exact hlL h
    · revert h; decide)]
  rw [show A ++ '[' :: '"' :: (lst.data ++ ['R', 'B'])
      = (A ++ '[' :: '"' :: lst.data) ++ 'R' :: 'B' :: [] by simp]
  rw [replaceRBAux_hit _ _ (by
    intro hmem
    rcases List.mem_append.mp hmem with h | h
    · exact hAR h
    · rcases List.mem_cons.mp h with h | h
      · exact absurd h (by decide)
      · rcases List.mem_cons.mp h with h | h
        · exact absurd h (by decide)
        · exact hlR h)]
  show (A ++ '[' :: '"' :: lst.data) ++ '"' :: ']' :: replaceRBAux []
      = A ++ '[' :: '"' :: (lst.data ++ ['"', ']'])
  simp [replaceRBAux]

theorem strStartsWithCh_eq (s : String) (c : Char) :
    strStartsWithCh s c
      = (match s.data with | [] => false | c0 :: _ => decide (c0 = c)) := rfl

theorem strEndsWithCh_eq (s : String) (c : Char) :
    strEndsWithCh s c
      = (match s.data.getLast? with | some c0 => decide (c0 = c) | none => false) := rfl

/-- A character outside the sanitized class (and distinct from the dot
separator) never occurs in a dot-join of sanitized segments. -/
theorem sanitized_join_no (ss : List String) (x : Char)
    (hx : ¬sanitizedCh x = true) (hd : x ≠ '.')
    (hss : ∀ s ∈ ss, ∀ c ∈ s.data, sanitizedCh c = true) :
    x ∉ (joinChar '.' ss).data := by
  intro hmem
  rcases mem_joinChar_data '.' ss x hmem with h | ⟨s, hs, hc⟩
  · exact hd h
  · exact hx (hss s hs x hc)

/-- C9 (amended): for a token whose `$value` is an alias wrapper over at
least two dot-free sanitized segments, at a location whose second path
segment is present and NON-EMPTY (and sanitized), the emitted
expression is the unquoted dotted path with that segment injected in
second position; a purely numeric trailing segment is rendered with
bracket-index syntax after the placeholder replacement passes. -/
theorem claim_C9 (ty s0 m lst : String) (mid pc : List String) (il : ℕ)
    (hty : ty ≠ "") (hpc : pc.getD 1 "" = m) (hm : m ≠ "")
    (hmc : ∀ c ∈ m.data, sanitizedCh c = true)
    (hseg : ∀ s ∈ s0 :: mid ++ [lst], ∀ c ∈ s.data, sanitizedCh c = true) :
    emitTokenJS ty ("\x7b" ++ joinChar '.' (s0 :: mid ++ [lst]) ++ "\x7d") pc il
      = if isNumericStr lst then
          joinChar '.' (s0 :: m :: mid) ++ "[\"" ++ lst ++ "\"]"
        else joinChar '.' (s0 :: m :: mid ++ [lst]) := by
  have hdot : ∀ s ∈ s0 :: mid ++ [lst], ('.' : Char) ∉ s.data := by
    intro s hs hc
    exact absurd (hseg s hs '.' hc) (by decide)
  have hsan2 : ∀ s ∈ s0 :: m :: mid, ∀ c ∈ s.data, sanitizedCh c = true := by
    intro s hs
    rcases List.mem_cons.mp hs with rfl | hs
    · exact hseg s (List.mem_cons_self s _)
    rcases List.mem_cons.mp hs with rfl | hs
    · exact hmc
    · exact hseg s (List.mem_cons_of_mem _ (List.mem_append_left [lst] hs))
  have hsanfin : ∀ s ∈ s0 :: m :: mid ++ [lst], ∀ c ∈ s.data, sanitizedCh c = true := by
    intro s hs
    rcases List.mem_cons.mp hs with rfl | hs
    · exact hseg s (List.mem_cons_self s _)
    rcases List.mem_cons.mp hs with rfl | hs
    · exact hmc
    · rcases List.mem_append.mp hs with hs | hs
      · exact hseg s (List.mem_cons_of_mem _ (List.mem_append_left [lst] hs))
      · exact hseg s (List.mem_cons_of_mem _ (List.mem_append_right mid hs))
  have hlL : ('L' : Char) ∉ lst.data := fun hc =>
    absurd (hseg lst (by simp) 'L' hc) (by decide)
  have hlR : ('R' : Char) ∉ lst.data := fun hc =>
    absurd (hseg lst (by simp) 'R' hc) (by decide)
  have hAL := sanitized_join_no (s0 :: m :: mid) 'L' (by decide) (by decide) hsan2
  have hAR := sanitized_join_no (s0 :: m :: mid) 'R' (by decide) (by decide) hsan2
  have hFL := sanitized_join_no (s0 :: m :: mid ++ [lst]) 'L' (by decide) (by decide) hsanfin
  have hFR := sanitized_join_no (s0 :: m :: mid ++ [lst]) 'R' (by decide) (by decide) hsanfin
  have hv : ("\x7b" ++ joinChar '.' (s0 :: mid ++ [lst]) ++ "\x7d").data
      = '{' :: ((joinChar '.' (s0 :: mid ++ [lst])).data ++ ['}']) := by
    rw [String.data_append, String.data_append]
    rfl
  have hstart : strStartsWithCh
      ("\x7b" ++ joinChar '.' (s0 :: mid ++ [lst]) ++ "\x7d") '\x7b' = true := by
    rw [strStartsWithCh_eq, hv]
    rfl
  have hend : strEndsWithCh
      ("\x7b" ++ joinChar '.' (s0 :: mid ++ [lst]) ++ "\x7d") '\x7d' = true := by
    rw [strEndsWithCh_eq, hv]
    rw [show ('{' :: ((joinChar '.' (s0 :: mid ++ [lst])).data ++ ['}']))
        = ('{' :: (joinChar '.' (s0 :: mid ++ [lst])).data) ++ ['}'] from rfl]
    rw [List.getLast?_concat]
    rfl
  have hslice : sliceInner ("\x7b" ++ joinChar '.' (s0 :: mid ++ [lst]) ++ "\x7d")
      = joinChar '.' (s0 :: mid ++ [lst]) := by
    apply String.ext
    show (("\x7b" ++ joinChar '.' (s0 :: mid ++ [lst]) ++ "\x7d").data.drop 1).dropLast = _
    rw [hv]
    show ((joinChar '.' (s0 :: mid ++ [lst])).data ++ ['}']).dropLast = _
    exact List.dropLast_concat
  show (⟨replaceRBAux (replaceLBAux (genVal (JVal.vobj
      [("$type", JVal.vstr ty), ("$value", JVal.vstr
        ("\x7b" ++ joinChar '.' (s0 :: mid ++ [lst]) ++ "\x7d"))]) pc il).data)⟩ : String) = _
  rw [genVal_token ty _ pc il hty]
  rw [if_pos (show _ = true by rw [hstart, hend]; rfl)]
  rw [hslice]
  rw [jsonAliasPath_spec s0 m lst mid pc hpc hm hdot]
  by_cases hn : isNumericStr lst = true
  · rw [if_pos hn, if_pos hn]
    apply String.ext
    have hd1 : (joinChar '.' (s0 :: m :: mid) ++ "LB" ++ lst ++ "RB").data
        = (joinChar '.' (s0 :: m :: mid)).data ++ 'L' :: 'B' :: (lst.data ++ ['R', 'B']) := by
      rw [String.data_append, String.data_append, String.data_append]
      simp
    show replaceRBAux (replaceLBAux
        (joinChar '.' (s0 :: m :: mid) ++ "LB" ++ lst ++ "RB").data) = _
    rw [hd1, phase2_bracket (joinChar '.' (s0 :: m :: mid)).data lst hAL hAR hlL hlR]
    rw [String.data_append, String.data_append, String.data_append]
    simp
  · rw [if_neg hn, if_neg hn]
    exact String.ext (phase2_id _ hFL hFR)

/-- C9 counterexample: at a location whose path has two segments but
whose SECOND segment is the empty string, the alias `\x7bx.y\x7d` is
emitted as `x.y` — no context segment is inserted, because the code
requires `contextSegment` to be truthy, while the claim requires
insertion whenever the location path has at least two segments. -/
theorem claim_C9_counterexample :
    emitTokenJS "color" "\x7bx.y\x7d" ["a", ""] 0 = "x.y"
    ∧ "x.y" ≠ ("x" ++ "." ++ "" ++ "." ++ "y" : String)
    ∧ (["a", ""] : List String).length ≥ 2 := by
  refine ⟨?_, by decide, by decide⟩
  show (⟨replaceRBAux (replaceLBAux (genVal (JVal.vobj
      [("$type", JVal.vstr "color"), ("$value", JVal.vstr "\x7bx.y\x7d")])
        ["a", ""] 0).data)⟩ : String) = "x.y"
  rw [genVal_token "color" "\x7bx.y\x7d" ["a", ""] 0 (by decide)]
  decide

/-- C9 witness: the alias `\x7bcolors.slate.2\x7d` at location
`enso/light/fill/default` is emitted as `colors.light.slate["2"]`. -/
theorem claim_C9_witness :
    emitTokenJS "color" "\x7bcolors.slate.2\x7d" ["enso", "light", "fill", "default"] 3
      = "colors.light.slate[\"2\"]" := by
  have h := claim_C9 "color" "colors" "light" "2" ["slate"]
    ["enso", "light", "fill", "default"] 3 (by decide) (by decide) (by decide)
    (by decide) (by decide)
  have e : ("\x7b" ++ joinChar '.' ("colors" :: ["slate"] ++ ["2"]) ++ "\x7d")
      = "\x7bcolors.slate.2\x7d" := by decide
  rw [e] at h
  rw [h]
  decide

end Toko
